import Mathlib

/-!
# moby-demo: a shallow embedding of `main.go`

The program talks to a container engine through a client library.  The
embedding replaces the engine by a record of the replies it gives in one run
(`Engine`), and every function of `main.go` by a function that returns the
list of observable events it produces (engine calls and writes to standard
output) together with the way it ends: a normal return, a Go panic, or a loop
that is still running when the step budget is used up.

Strings of the Go program are byte strings; here a `Char` stands for one byte.
-/

namespace MobyDemo

/-! ## Data passed to and from the engine -/

/-- Go `container.Config`, restricted to the fields `main.go` sets. -/
structure Config where
  Image : String
  Cmd : List String
  deriving DecidableEq, Repr

/-- Go `mount.Type`; `main.go` only uses `mount.TypeBind`. -/
inductive MountType
  | bind
  | volume
  | tmpfs
  deriving DecidableEq, Repr

/-- Go `mount.Mount`, restricted to the fields `main.go` sets (`Typ` is the Go
field `Type`). -/
structure Mount where
  Typ : MountType
  Source : String
  Target : String
  ReadOnly : Bool
  deriving DecidableEq, Repr

/-- Go `container.HostConfig`, restricted to the field `main.go` sets. -/
structure HostConfig where
  Mounts : List Mount
  deriving DecidableEq, Repr

/-- Go `specs.Platform`, restricted to the fields `main.go` sets. -/
structure Platform where
  Architecture : String
  OS : String
  deriving DecidableEq, Repr

/-- Go `types.ImageSummary`, restricted to the fields `main.go` reads. -/
structure ImageSummary where
  ID : String
  RepoTags : List String
  deriving DecidableEq, Repr

/-- The error value of a stream read: `io.EOF` or any other error. -/
inductive IOErr
  | eof
  | other
  deriving DecidableEq, Repr

/-- The reply of a `Read` on the image-pull response, as far as `pullImage`
looks at it: the error reported by the read number `i` (`none` is Go `nil`). -/
abbrev PullStream := Nat → Option IOErr

/-- A finite byte stream behind an `io.Reader`: the bytes still to be
delivered, the sizes the next reads are cut to (once the list is used up a
read returns all that fits), and the error reported, with zero bytes, by every
read made after the data is exhausted. -/
structure Stream where
  data : List Char
  sizes : List Nat
  fin : IOErr
  deriving DecidableEq, Repr

/-- The way the `select` of `watchContainer` ends: a signal on `sigC`, a value
on `errC` (an error or `nil`), or a status on `statusC`. -/
inductive WaitOutcome
  | interrupt
  | daemonErr (err : Option String)
  | exited (statusCode : Int)
  deriving DecidableEq, Repr

/-- The replies of the outside world in one run: every engine call is made at
most once, so one reply per call describes the engine completely. -/
structure Engine where
  newClient : Option String
  getwd : Except String String
  imagePull : Except String PullStream
  containerCreate : Except String String
  containerStart : Option String
  containerWait : WaitOutcome
  containerLogs : Except String Stream
  imageList : Except String (List ImageSummary)
  imageRemove : Option String
  containerRemove : Option String

/-! ## Observable events and the way a function ends -/

/-- An engine call with the arguments `main.go` passes. -/
inductive Call
  | newClient
  | imagePull (ref : String) (platform : String)
  | containerCreate (conf : Config) (host : HostConfig) (plat : Platform) (name : String)
  | containerStart (id : String)
  | containerWait (id : String) (condition : String)
  | containerLogs (id : String) (showStdout : Bool)
  | imageList
  | imageRemove (id : String) (force : Bool)
  | containerRemove (id : String) (force : Bool)
  deriving DecidableEq, Repr

/-- An observable step: an engine call, with whether it reported an error, or
a write to standard output. -/
inductive Event
  | call (c : Call) (failed : Bool)
  | stdout (text : String)
  deriving DecidableEq, Repr

/-- How a function ends: it returns a value, it panics with an error, or it is
still looping when the step budget is used up. -/
inductive Result (α : Type)
  | ret (a : α)
  | panicked (e : String)
  | running
  deriving DecidableEq, Repr

/-- A computation: the events produced so far and the way it ended. -/
structure Run (α : Type) where
  trace : List Event
  val : Result α
  deriving DecidableEq, Repr

/-- Sequencing: the second computation runs only if the first returned. -/
def Run.bind {α β : Type} (m : Run α) (f : α → Run β) : Run β :=
  match m.val with
  | .ret a => ⟨m.trace ++ (f a).trace, (f a).val⟩
  | .panicked e => ⟨m.trace, .panicked e⟩
  | .running => ⟨m.trace, .running⟩

instance : Monad Run where
  pure a := ⟨[], .ret a⟩
  bind := Run.bind

/-- Record one event. -/
def emit (e : Event) : Run Unit := ⟨[e], .ret ()⟩

/-- Go `panic(err)`. -/
def panic {α : Type} (e : String) : Run α := ⟨[], .panicked e⟩

/-- A loop that has not ended within the step budget. -/
def stillRunning {α : Type} : Run α := ⟨[], .running⟩

/-- Go `fmt.Println(s)`. -/
def Println (s : String) : Run Unit := emit (.stdout (s ++ "\n"))

/-- Is the error value non-nil? -/
def failed {ε : Type} : Option ε → Bool
  | some _ => true
  | none => false

/-- Is the reply an error? -/
def isErr {ε α : Type} : Except ε α → Bool
  | .error _ => true
  | .ok _ => false

/-! ## `identifyImage` -/

/-- The inner loop of `identifyImage`: does some tag equal `alpine:latest`? -/
def tagLoop : List String → Bool
  | [] => false
  | tag :: rest => if tag = "alpine:latest" then true else tagLoop rest

/-- The outer loop of `identifyImage`: the ID of the first image the inner loop
accepts, and the empty string when the list is used up. -/
def imageLoop : List ImageSummary → String
  | [] => ""
  | image :: rest => if tagLoop image.RepoTags then image.ID else imageLoop rest

/-- Go `identifyImage`. -/
def identifyImage (cli : Engine) : Run String := do
  emit (.call .imageList (isErr cli.imageList))
  match cli.imageList with
  | .error err => panic err
  | .ok images => pure (imageLoop images)

/-! ## `pullImage` -/

/-- The read loop of `pullImage`: `i` reads have been made; the loop ends at
the first read that reports `io.EOF` and gives the number of reads made. -/
def drain (out : PullStream) : Nat → Nat → Option Nat
  | 0, _ => none
  | fuel + 1, i => if out i = some IOErr.eof then some (i + 1) else drain out fuel (i + 1)

/-- Go `pullImage`. -/
def pullImage (fuel : Nat) (cli : Engine) : Run Unit := do
  emit (.call (.imagePull "alpine:latest" "amd64") (isErr cli.imagePull))
  match cli.imagePull with
  | .error err => panic err
  | .ok out =>
    match drain out fuel 0 with
    | some _ => pure ()
    | none => stillRunning

/-! ## `path/filepath` on Unix, as used by `makeAbsolute`

Paths are handled as lists of bytes.  The output buffer of `Clean` is kept
reversed (its head is the byte written last), so that the index `w` of the Go
code is the length of the list. -/

/-- The backtracking of the `..` case of `Clean`: `w--`, then `w--` again as
long as `w > dotdot` and the byte at index `w` is not a separator.  The
argument is the reversed buffer content before the first decrement. -/
def backLoop (dotdot : Nat) : List Char → List Char
  | [] => []
  | c :: rest => if dotdot < rest.length ∧ c ≠ '/' then backLoop dotdot rest else rest

/-- The main loop of `Clean`: `path` is the part of the input still to be
read, `out` the reversed output buffer, `dotdot` the index where `..` must
stop.  Every turn of the loop reads at least one byte, so the first argument,
a bound on the number of turns, is never used up when it starts at the length
of the input (`cleanLoop_fuel`). -/
def cleanLoop (rooted : Bool) : Nat → List Char → List Char → Nat → List Char
  | 0, _, out, _ => out
  | _ + 1, [], out, _ => out
  | fuel + 1, c :: t, out, dotdot =>
    if c = '/' then
      -- empty path element
      cleanLoop rooted fuel t out dotdot
    else if c = '.' ∧ (t = [] ∨ t.head? = some '/') then
      -- . element
      cleanLoop rooted fuel t out dotdot
    else if c = '.' ∧ t.head? = some '.' ∧ (t.tail = [] ∨ t.tail.head? = some '/') then
      -- .. element: remove to last separator
      if dotdot < out.length then
        cleanLoop rooted fuel t.tail (backLoop dotdot out) dotdot
      else if rooted = false then
        let out1 := if 0 < out.length then '/' :: out else out
        cleanLoop rooted fuel t.tail ('.' :: '.' :: out1) (out1.length + 2)
      else
        cleanLoop rooted fuel t.tail out dotdot
    else
      -- real path element: add slash if needed, then copy the element
      let out1 :=
        if (rooted = true ∧ out.length ≠ 1) ∨ (rooted = false ∧ out.length ≠ 0) then '/' :: out
        else out
      cleanLoop rooted fuel (t.dropWhile (fun x => x ≠ '/'))
        ((t.takeWhile (fun x => x ≠ '/')).reverse ++ c :: out1) dotdot

/-- Go `filepath.Clean` on Unix (no volume names). -/
def Clean (path : List Char) : List Char :=
  if path = [] then ['.']
  else
    let rooted : Bool := path.head? = some '/'
    let out :=
      if rooted then cleanLoop rooted path.length path.tail ['/'] 1
      else cleanLoop rooted path.length path [] 0
    -- Turn empty string into "."
    (if out.length = 0 then '.' :: out else out).reverse

/-- Go `filepath.Join` on Unix: the elements from the first non-empty one on,
joined with a slash and cleaned. -/
def Join : List String → String
  | [] => ""
  | e :: rest =>
    if e ≠ "" then String.mk (Clean (String.intercalate "/" (e :: rest)).data)
    else Join rest

/-- Go `filepath.IsAbs` on Unix. -/
def IsAbs (path : String) : Bool := path.data.head? = some '/'

/-- Go `filepath.Abs` on Unix; `getwd` is the reply of `os.Getwd`. -/
def Abs (getwd : Except String String) (path : String) : Except String String :=
  if IsAbs path then .ok (String.mk (Clean path.data))
  else
    match getwd with
    | .error err => .error err
    | .ok wd => .ok (Join [wd, path])

/-- Go `makeAbsolute`. -/
def makeAbsolute (cli : Engine) (rel_path : String) : Run String :=
  match Abs cli.getwd rel_path with
  | .error err => panic err
  | .ok abs_path => pure abs_path

/-! ## `createContainer` -/

/-- Go `createContainer`. -/
def createContainer (cli : Engine) (args : List String) : Run String := do
  let conf : Config := { Image := "alpine:latest", Cmd := args }
  let source1 ← makeAbsolute cli "dir1"
  let source2 ← makeAbsolute cli "dir2"
  let con_conf : HostConfig :=
    { Mounts :=
        [ { Typ := MountType.bind, Source := source1, Target := "/dir1", ReadOnly := true },
          { Typ := MountType.bind, Source := source2, Target := "/dir2", ReadOnly := false } ] }
  let plats : Platform := { Architecture := "amd64", OS := "linux" }
  emit (.call (.containerCreate conf con_conf plats "") (isErr cli.containerCreate))
  match cli.containerCreate with
  | .error err => panic err
  | .ok con => pure con

/-! ## `bufio.Scanner` with the default split function and buffer limit

`dumpContainerLogs` reads the log stream through `bufio.NewScanner`, that is
with `ScanLines` as split function and a buffer that grows from `startBufSize`
up to `MaxScanTokenSize`.  The buffer is described by its length `bufLen`, the
index `start`, and the bytes `held` between `start` and `end`.  `ScanLines`
never reports an error, never asks to advance past the data and never returns
a token without advancing, and the streams of this model never return more
bytes than asked for, so the branches of `Scan` for those cases (`ErrFinalToken`,
the errors of `advance`, the count of empty tokens, `ErrBadReadCount`) are left
out. -/

/-- Go `bufio.MaxScanTokenSize`. -/
def MaxScanTokenSize : Nat := 64 * 1024

/-- Go `bufio.startBufSize`. -/
def startBufSize : Nat := 4096

/-- Go `maxInt` on a 64-bit platform. -/
def maxInt : Nat := 2 ^ 63 - 1

/-- The errors a `Scanner` can hold: a read error, `ErrTooLong`,
`io.ErrNoProgress`. -/
inductive ScanErr
  | io (e : IOErr)
  | tooLong
  | noProgress
  deriving DecidableEq, Repr

/-- Go `Read(p)` with `len(p) = k` on a stream. -/
def Stream.read (r : Stream) (k : Nat) : List Char × Option IOErr × Stream :=
  match r.data with
  | [] => ([], some r.fin, r)
  | _ :: _ =>
    let m := match r.sizes with
      | [] => k
      | c :: _ => min c k
    (r.data.take m, none, { r with data := r.data.drop m, sizes := r.sizes.tail })

/-- The search of `bytes.IndexByte` from index `i` on. -/
def indexFrom (c : Char) : List Char → Nat → Option Nat
  | [], _ => none
  | x :: rest, i => if x = c then some i else indexFrom c rest (i + 1)

/-- Go `bytes.IndexByte`, with `none` for `-1`. -/
def IndexByte (b : List Char) (c : Char) : Option Nat := indexFrom c b 0

/-- Go `bufio.dropCR`. -/
def dropCR (data : List Char) : List Char :=
  if 0 < data.length ∧ data.getLast? = some '\r' then data.dropLast else data

/-- Go `bufio.ScanLines`: the advance and the token (`none` is `nil`). -/
def ScanLines (data : List Char) (atEOF : Bool) : Nat × Option (List Char) :=
  if atEOF = true ∧ data.length = 0 then (0, none)
  else
    match IndexByte data '\n' with
    | some i =>
      -- We have a full newline-terminated line.
      (i + 1, some (dropCR (data.take i)))
    | none =>
      -- If we are at EOF, we have a final, non-terminated line. Return it.
      if atEOF then (data.length, some (dropCR data))
      -- Request more data.
      else (0, none)

/-- Go `bufio.Scanner`. -/
structure Scanner where
  r : Stream
  bufLen : Nat
  start : Nat
  held : List Char
  token : Option (List Char)
  err : Option ScanErr
  deriving DecidableEq, Repr

/-- Go `bufio.NewScanner`. -/
def NewScanner (r : Stream) : Scanner :=
  { r := r, bufLen := 0, start := 0, held := [], token := none, err := none }

/-- Go `Scanner.setErr`: record the first non-EOF error. -/
def Scanner.setErr (s : Scanner) (err : ScanErr) : Scanner :=
  if s.err = none ∨ s.err = some (ScanErr.io IOErr.eof) then { s with err := some err } else s

/-- The first part of a turn of the loop of `Scan`: if there is data or an
error, ask the split function for a token and advance. -/
def Scanner.split (s : Scanner) : Scanner :=
  if 0 < s.held.length ∨ s.err ≠ none then
    let got := ScanLines s.held (s.err ≠ none)
    { s with start := s.start + got.1, held := s.held.drop got.1, token := got.2 }
  else s

/-- The inner loop of `Scan`: read until some bytes or an error arrive, giving
up with `io.ErrNoProgress` after more than `maxConsecutiveEmptyReads = 100`
empty reads.  The first argument is the number of reads left; `Scan` enters the
loop with 101. -/
def readLoop : Nat → Scanner → Scanner
  | 0, s => s.setErr ScanErr.noProgress
  | left + 1, s =>
    let got := s.r.read (s.bufLen - (s.start + s.held.length))
    let s1 := { s with r := got.2.2, held := s.held ++ got.1 }
    match got.2.1 with
    | some e => s1.setErr (ScanErr.io e)
    | none => if 0 < got.1.length then s1 else readLoop left s1

/-- The second part of a turn of the loop of `Scan`, entered when no token was
found: `Sum.inl` when `Scan` returns false, `Sum.inr` when the loop goes on
after reading more input. -/
def Scanner.fill (s : Scanner) : Scanner ⊕ Scanner :=
  -- If we have already hit EOF or an I/O error, we are done.
  if s.err ≠ none then Sum.inl { s with start := 0, held := [] }
  else
    -- First, shift data to beginning of buffer.
    let s1 :=
      if 0 < s.start ∧ (s.start + s.held.length = s.bufLen ∨ s.bufLen / 2 < s.start) then
        { s with start := 0 }
      else s
    -- Is the buffer full? If so, resize.
    if s1.start + s1.held.length = s1.bufLen then
      if MaxScanTokenSize ≤ s1.bufLen ∨ maxInt / 2 < s1.bufLen then
        Sum.inl (s1.setErr ScanErr.tooLong)
      else
        let newSize := if s1.bufLen * 2 = 0 then startBufSize else s1.bufLen * 2
        Sum.inr (readLoop 101 { s1 with bufLen := min newSize MaxScanTokenSize, start := 0 })
    else Sum.inr (readLoop 101 s1)

/-- Go `Scanner.Scan`: whether a token was found, and the scanner afterwards;
`none` when the loop has not ended within `fuel` turns. -/
def Scan : Nat → Scanner → Option (Bool × Scanner)
  | 0, _ => none
  | fuel + 1, s =>
    let s1 := s.split
    if s1.token ≠ none ∧ (0 < s.held.length ∨ s.err ≠ none) then some (true, s1)
    else
      match s1.fill with
      | Sum.inl s2 => some (false, s2)
      | Sum.inr s2 => Scan fuel s2

/-- Go `Scanner.Text`. -/
def Scanner.Text (s : Scanner) : String := String.mk (s.token.getD [])

/-! ## The functions of `main.go` -/

/-- The loop `for scanner.Scan() { fmt.Println(scanner.Text()) }`. -/
def printLoop : Nat → Scanner → Run Unit
  | 0, _ => stillRunning
  | fuel + 1, s =>
    match Scan (fuel + 1) s with
    | none => stillRunning
    | some (false, _) => pure ()
    | some (true, s1) => do
      Println s1.Text
      printLoop fuel s1

/-- Go `dumpContainerLogs`. -/
def dumpContainerLogs (fuel : Nat) (cli : Engine) (id : String) : Run Unit := do
  emit (.call (.containerLogs id true) (isErr cli.containerLogs))
  match cli.containerLogs with
  | .error err => panic err
  | .ok out => printLoop fuel (NewScanner out)

/-- Go `imageRemove`. -/
def imageRemove (cli : Engine) : Run Unit := do
  let id ← identifyImage cli
  emit (.call (.imageRemove id true) (failed cli.imageRemove))
  match cli.imageRemove with
  | some err => panic err
  | none => pure ()

/-- Go `fmt.Sprintf("%d", n)` for an `int64`: the decimal digits, after a minus
sign when the number is negative. -/
def formatInt (n : Int) : String :=
  if n < 0 then "-" ++ String.mk (Nat.toDigits 10 n.natAbs)
  else String.mk (Nat.toDigits 10 n.natAbs)

/-- Go `watchContainer`. -/
def watchContainer (fuel : Nat) (cli : Engine) (id : String) : Run Unit := do
  emit (.call (.containerWait id "not-running")
    (match cli.containerWait with
     | .daemonErr err => failed err
     | _ => false))
  match cli.containerWait with
  | .interrupt => Println "(caught SIGINT)"
  | .daemonErr err =>
    if err ≠ none then Println "An error occured with the docker daemon" else pure ()
  | .exited statusCode => emit (.stdout ("(exited with " ++ formatInt statusCode ++ ")\n"))
  dumpContainerLogs fuel cli id
  imageRemove cli

/-- Go `runContainer`. -/
def runContainer (fuel : Nat) (cli : Engine) (args : List String) : Run Unit := do
  pullImage fuel cli
  let id ← createContainer cli args
  emit (.call (.containerStart id) (failed cli.containerStart))
  watchContainer fuel cli id
  emit (.call (.containerRemove id true) (failed cli.containerRemove))

/-- Go `main`; `osArgs` is `os.Args`, the program name followed by the
command-line arguments. -/
def main (fuel : Nat) (cli : Engine) (osArgs : List String) : Run Unit := do
  emit (.call .newClient (failed cli.newClient))
  match cli.newClient with
  | some err => panic err
  | none =>
    match osArgs with
    | [] => panic "runtime error: slice bounds out of range [1:0]"
    | _ :: rest =>
      let args := if rest.length = 0 then ["uname", "-a"] else rest
      Println (String.intercalate " " args)
      runContainer fuel cli args

/-! ## Reading a trace -/

/-- The operation of an engine call, without its arguments. -/
inductive Kind
  | newClient
  | imagePull
  | containerCreate
  | containerStart
  | containerWait
  | containerLogs
  | imageList
  | imageRemove
  | containerRemove
  deriving DecidableEq, Repr

/-- The operation of an engine call. -/
def Call.kind : Call → Kind
  | .newClient => .newClient
  | .imagePull _ _ => .imagePull
  | .containerCreate _ _ _ _ => .containerCreate
  | .containerStart _ => .containerStart
  | .containerWait _ _ => .containerWait
  | .containerLogs _ _ => .containerLogs
  | .imageList => .imageList
  | .imageRemove _ _ => .imageRemove
  | .containerRemove _ _ => .containerRemove

/-- The engine calls of a trace, in the order they were made. -/
def callsOf : List Event → List Call
  | [] => []
  | .call c _ :: rest => c :: callsOf rest
  | .stdout _ :: rest => callsOf rest

/-- The call a run of `createContainer` makes in the working directory `cwd`. -/
def createCall (cwd : String) (args : List String) : Call :=
  .containerCreate
    { Image := "alpine:latest", Cmd := args }
    { Mounts :=
        [ { Typ := MountType.bind, Source := Join [cwd, "dir1"], Target := "/dir1",
            ReadOnly := true },
          { Typ := MountType.bind, Source := Join [cwd, "dir2"], Target := "/dir2",
            ReadOnly := false } ] }
    { Architecture := "amd64", OS := "linux" } ""

/-- The order of the engine calls of a run of `runContainer` that goes through,
by operation. -/
def runOrder : List Kind :=
  [.imagePull, .containerCreate, .containerStart, .containerWait, .containerLogs, .imageList,
   .imageRemove, .containerRemove]

/-- The wait call of `watchContainer` and the message that follows it, for
each way the wait can end. -/
def waitEvents (id : String) : WaitOutcome → List Event
  | .interrupt =>
    [.call (.containerWait id "not-running") false, .stdout "(caught SIGINT)\n"]
  | .daemonErr (some _) =>
    [.call (.containerWait id "not-running") true,
     .stdout "An error occured with the docker daemon\n"]
  | .daemonErr none => [.call (.containerWait id "not-running") false]
  | .exited n =>
    [.call (.containerWait id "not-running") false,
     .stdout ("(exited with " ++ formatInt n ++ ")\n")]

/-- The operations whose error `main.go` answers with `panic`. -/
def panicKinds : List Kind :=
  [.newClient, .imagePull, .containerCreate, .containerLogs, .imageList, .imageRemove]

/-- A computation answers the errors of the operations of `panicKinds` with a
panic: a call of one of these operations that reported an error is the last
event of its trace, and the computation ended in a panic. -/
def PanicsAtError {α : Type} (r : Run α) : Prop :=
  ∀ (pre : List Event) (c : Call) (suf : List Event),
    r.trace = pre ++ Event.call c true :: suf → c.kind ∈ panicKinds →
    suf = [] ∧ ∃ e, r.val = .panicked e

/-! ## The lines of a byte stream and the cost of a scanner -/

/-- The lines of a byte stream, read off the specification: the bytes between
consecutive newlines, in stream order, with the newline left out; bytes after
the last newline form a last line when there are any.  `acc` holds, reversed,
the bytes of the line being collected. -/
def linesGo : List Char → List Char → List (List Char)
  | [], acc => if acc = [] then [] else [acc.reverse]
  | c :: t, acc => if c = '\n' then acc.reverse :: linesGo t [] else linesGo t (c :: acc)

/-- The lines of a byte stream. -/
def lines (data : List Char) : List (List Char) := linesGo data []

/-- A bound on the number of turns the loops of `Scan` and `printLoop` can
still make: every turn lowers it. -/
def Scanner.cost (s : Scanner) : Nat :=
  2 * s.r.data.length + s.r.sizes.length + s.held.length + (if s.err = none then 1 else 0)

/-- The conditions under which the buffer indices of a scanner make sense and
its stream makes progress: the data fits the buffer, the buffer is within the
limit, no read is cut to zero bytes, and an error, if any, is the final error
of the exhausted stream. -/
def Scanner.Inv (s : Scanner) : Prop :=
  s.start + s.held.length ≤ s.bufLen ∧ s.bufLen ≤ MaxScanTokenSize
    ∧ (∀ c ∈ s.r.sizes, 0 < c)
    ∧ (s.err = none ∨ (s.err = some (ScanErr.io s.r.fin) ∧ s.r.data = []))

/-! ## Engines used as concrete inputs -/

/-- The images of `demoEngine`. -/
def demoImages : List ImageSummary :=
  [⟨"sha256:1", ["busybox:latest"]⟩, ⟨"sha256:2", ["alpine:3", "alpine:latest"]⟩,
   ⟨"sha256:3", ["alpine:latest"]⟩]

/-- A pull response whose first two reads report no error and a non-EOF error,
and whose third read reports `io.EOF`. -/
def demoPull : PullStream := fun i =>
  if i = 0 then none else if i = 1 then some IOErr.other else some IOErr.eof

/-- A log stream of four lines, delivered in reads of one, two and then as many
bytes as fit. -/
def demoLogs : Stream :=
  { data := "Linux\r\nabc\n\nxyz".data, sizes := [1, 2], fin := IOErr.eof }

/-- An engine on which every call succeeds and the container exits with
status 0. -/
def demoEngine : Engine :=
  { newClient := none
    getwd := .ok "/w"
    imagePull := .ok demoPull
    containerCreate := .ok "c1"
    containerStart := none
    containerWait := .exited 0
    containerLogs := .ok demoLogs
    imageList := .ok demoImages
    imageRemove := none
    containerRemove := none }

/-- A log stream of two lines, the first of 65536 bytes. -/
def longLineLogs : Stream :=
  { data := List.replicate 65536 'a' ++ ['\n', 'b', '\n'], sizes := [], fin := IOErr.eof }

/-- An engine whose log stream is `longLineLogs`. -/
def longLineEngine : Engine := { demoEngine with containerLogs := .ok longLineLogs }

/-- A log stream of one short line whose first 101 reads return no bytes and
no error. -/
def stalledLogs : Stream :=
  { data := ['a', 'b', '\n'], sizes := List.replicate 101 0, fin := IOErr.eof }

/-- An engine whose log stream is `stalledLogs`. -/
def stalledEngine : Engine := { demoEngine with containerLogs := .ok stalledLogs }

/-- An engine on which the container wait delivers a daemon error and every
other call succeeds. -/
def waitErrorEngine : Engine :=
  { demoEngine with containerWait := .daemonErr (some "connection reset") }

/-- An engine on which the logs call fails and every other call succeeds. -/
def logsErrorEngine : Engine :=
  { demoEngine with containerLogs := .error "no such container" }

/-- An engine on which the image list fails and every other call succeeds. -/
def listErrorEngine : Engine :=
  { demoEngine with imageList := .error "daemon unreachable" }

/-- An engine on which the image removal fails and every other call succeeds. -/
def removeErrorEngine : Engine :=
  { demoEngine with imageRemove := some "image is in use" }

/-! ## Sequencing lemmas -/

@[simp] theorem run_bind_eq {α β : Type} (m : Run α) (f : α → Run β) :
    (m >>= f) = m.bind f := rfl

@[simp] theorem run_pure_eq {α : Type} (a : α) : (pure a : Run α) = ⟨[], .ret a⟩ := rfl

/-! ## `identifyImage` -/

theorem tagLoop_iff (tags : List String) : tagLoop tags = true ↔ "alpine:latest" ∈ tags := by
  induction tags with
  | nil => simp [tagLoop]
  | cons t rest ih =>
    by_cases h : t = "alpine:latest"
    · simp [tagLoop, h]
    · simp [tagLoop, h, ih, Ne.symm h]

theorem tagLoop_false {tags : List String} (h : "alpine:latest" ∉ tags) : tagLoop tags = false := by
  cases hh : tagLoop tags
  · rfl
  · exact absurd ((tagLoop_iff _).1 hh) h

theorem imageLoop_eq_find (images : List ImageSummary) :
    imageLoop images =
      match images.find? (fun im => decide ("alpine:latest" ∈ im.RepoTags)) with
      | some im => im.ID
      | none => "" := by
  induction images with
  | nil => simp [imageLoop]
  | cons im rest ih =>
    by_cases h : "alpine:latest" ∈ im.RepoTags
    · simp [imageLoop, (tagLoop_iff _).2 h, List.find?, h]
    · simp [imageLoop, tagLoop_false h, List.find?, h, ih]

theorem imageLoop_filter (images : List ImageSummary) :
    imageLoop (images.filter (fun im => decide ("alpine:latest" ∈ im.RepoTags))) =
      imageLoop images := by
  induction images with
  | nil => rfl
  | cons im rest ih =>
    by_cases h : "alpine:latest" ∈ im.RepoTags
    · simp [imageLoop, (tagLoop_iff _).2 h, List.filter, h]
    · simp [imageLoop, tagLoop_false h, List.filter, h, ih]

theorem imageLoop_eq_empty_iff (images : List ImageSummary)
    (hid : ∀ im ∈ images, im.ID ≠ "") :
    imageLoop images = "" ↔ ∀ im ∈ images, "alpine:latest" ∉ im.RepoTags := by
  induction images with
  | nil => simp [imageLoop]
  | cons im rest ih =>
    have ih2 := ih (fun x hx => hid x (List.mem_cons_of_mem _ hx))
    by_cases h : "alpine:latest" ∈ im.RepoTags
    · have := hid im (List.mem_cons_self _ _)
      simp [imageLoop, (tagLoop_iff _).2 h, h, this]
    · simp [imageLoop, tagLoop_false h, h, ih2]

theorem identifyImage_ok (cli : Engine) (images : List ImageSummary)
    (h : cli.imageList = .ok images) :
    identifyImage cli = ⟨[.call .imageList false], .ret (imageLoop images)⟩ := by
  simp [identifyImage, h, Run.bind, emit, isErr]

/-- C9: when the engine returns the image list `images`, `identifyImage` returns
the ID of the first image of the list that has a repository tag equal to
`alpine:latest`, and the empty string when there is none; if all IDs are
non-empty, the result is empty exactly when no image carries the tag; and the
result is the same on the list with all images without the tag removed. -/
theorem identifyImage_first_tagged (cli : Engine) (images : List ImageSummary)
    (h : cli.imageList = .ok images) :
    (identifyImage cli).val =
        .ret (match images.find? (fun im => decide ("alpine:latest" ∈ im.RepoTags)) with
              | some im => im.ID
              | none => "")
      ∧ ((∀ im ∈ images, im.ID ≠ "") →
          ((identifyImage cli).val = .ret "" ↔
            ∀ im ∈ images, "alpine:latest" ∉ im.RepoTags))
      ∧ (∀ cli2 : Engine,
          cli2.imageList =
              .ok (images.filter (fun im => decide ("alpine:latest" ∈ im.RepoTags))) →
          (identifyImage cli2).val = (identifyImage cli).val) := by
  refine ⟨?_, ?_, ?_⟩
  · rw [identifyImage_ok cli images h, imageLoop_eq_find]
  · intro hid
    rw [identifyImage_ok cli images h]
    simpa using imageLoop_eq_empty_iff images hid
  · intro cli2 h2
    rw [identifyImage_ok cli images h, identifyImage_ok cli2 _ h2, imageLoop_filter]

/-- The instance of C9 on `demoEngine`: the second image is the first one
tagged `alpine:latest`. -/
theorem identifyImage_first_tagged_witness :
    demoEngine.imageList = .ok demoImages
      ∧ (∀ im ∈ demoImages, im.ID ≠ "")
      ∧ (identifyImage demoEngine).val = .ret "sha256:2"
      ∧ ((identifyImage demoEngine).val = .ret "" ↔
          ∀ im ∈ demoImages, "alpine:latest" ∉ im.RepoTags) :=
  ⟨rfl, by decide, (identifyImage_first_tagged demoEngine demoImages rfl).1,
    (identifyImage_first_tagged demoEngine demoImages rfl).2.1 (by decide)⟩

/-! ## `pullImage` -/

theorem drain_eof (out : PullStream) (k : Nat) (hk : out k = some IOErr.eof) :
    ∀ (d fuel i : Nat), i + d = k → (∀ j, i ≤ j → j < k → out j ≠ some IOErr.eof) →
      d < fuel → drain out fuel i = some (k + 1) := by
  intro d
  induction d with
  | zero =>
    intro fuel i hik _ hf
    obtain ⟨f, rfl⟩ : ∃ f, fuel = f + 1 := ⟨fuel - 1, by omega⟩
    have : i = k := by omega
    subst this
    simp [drain, hk]
  | succ d ih =>
    intro fuel i hik hlt hf
    obtain ⟨f, rfl⟩ : ∃ f, fuel = f + 1 := ⟨fuel - 1, by omega⟩
    have hi : out i ≠ some IOErr.eof := hlt i (Nat.le_refl _) (by omega)
    simp only [drain, hi, if_false]
    exact ih f (i + 1) (by omega) (fun j h1 h2 => hlt j (by omega) h2) (by omega)

theorem drain_some (out : PullStream) :
    ∀ (fuel i n : Nat), drain out fuel i = some n →
      i < n ∧ out (n - 1) = some IOErr.eof ∧ ∀ j, i ≤ j → j < n - 1 → out j ≠ some IOErr.eof := by
  intro fuel
  induction fuel with
  | zero => intro i n h; simp [drain] at h
  | succ f ih =>
    intro i n h
    by_cases hi : out i = some IOErr.eof
    · simp [drain, hi] at h
      subst h
      refine ⟨by omega, by simpa using hi, fun j h1 h2 => ?_⟩
      omega
    · simp only [drain, hi, if_false] at h
      obtain ⟨h1, h2, h3⟩ := ih (i + 1) n h
      refine ⟨by omega, h2, fun j hj1 hj2 => ?_⟩
      by_cases hji : j = i
      · subst hji; exact hi
      · exact h3 j (by omega) hj2

theorem drain_never (out : PullStream) (h : ∀ i, out i ≠ some IOErr.eof) :
    ∀ (fuel i : Nat), drain out fuel i = none := by
  intro fuel
  induction fuel with
  | zero => intro i; rfl
  | succ f ih => intro i; simp only [drain, h i, if_false]; exact ih (i + 1)

/-- C10: on a response whose read number `k` is the first to report `io.EOF`
(the earlier reads may report any other error), the loop of `pullImage` makes
exactly the reads `0` to `k` whenever it is given more than `k` turns, and
`pullImage` then returns having produced the pull call and no output; the loop
ends only at a read that reports `io.EOF`; and on a response whose reads all
report a non-EOF error the loop has not ended after any number of turns. -/
theorem pullImage_drains (cli : Engine) (out : PullStream) (k : Nat)
    (hcli : cli.imagePull = .ok out)
    (hbefore : ∀ j, j < k → out j ≠ some IOErr.eof) (hk : out k = some IOErr.eof) :
    (∀ fuel, k < fuel → drain out fuel 0 = some (k + 1))
      ∧ (∀ fuel, k < fuel →
          pullImage fuel cli = ⟨[.call (.imagePull "alpine:latest" "amd64") false], .ret ()⟩)
      ∧ (∀ (out2 : PullStream) (fuel n : Nat), drain out2 fuel 0 = some n →
          out2 (n - 1) = some IOErr.eof ∧ ∀ j, j < n - 1 → out2 j ≠ some IOErr.eof)
      ∧ (∀ (out2 : PullStream), (∀ i, out2 i = some IOErr.other) →
          ∀ fuel, drain out2 fuel 0 = none
            ∧ ∀ cli2 : Engine, cli2.imagePull = .ok out2 →
                (pullImage fuel cli2).val = .running) := by
  have h1 : ∀ fuel, k < fuel → drain out fuel 0 = some (k + 1) := fun fuel hf =>
    drain_eof out k hk k fuel 0 (by omega) (fun j _ hj => hbefore j hj) hf
  refine ⟨h1, ?_, ?_, ?_⟩
  · intro fuel hf
    simp [pullImage, hcli, Run.bind, emit, isErr, h1 fuel hf]
  · intro out2 fuel n h
    obtain ⟨_, h2, h3⟩ := drain_some out2 fuel 0 n h
    exact ⟨h2, fun j hj => h3 j (Nat.zero_le _) hj⟩
  · intro out2 hall fuel
    have hn : drain out2 fuel 0 = none :=
      drain_never out2 (fun i => by rw [hall i]; decide) fuel 0
    refine ⟨hn, fun cli2 h2 => ?_⟩
    simp [pullImage, h2, Run.bind, emit, hn, stillRunning]

/-- The instance of C10 on `demoEngine`, whose third read is the first to
report `io.EOF` and whose second read reports another error. -/
theorem pullImage_drains_witness :
    demoEngine.imagePull = .ok demoPull
      ∧ demoPull 1 = some IOErr.other
      ∧ demoPull 2 = some IOErr.eof
      ∧ drain demoPull 3 0 = some 3
      ∧ pullImage 3 demoEngine = ⟨[.call (.imagePull "alpine:latest" "amd64") false], .ret ()⟩ :=
  ⟨rfl, rfl, rfl,
    (pullImage_drains demoEngine demoPull 2 rfl (by decide) rfl).1 3 (by decide),
    (pullImage_drains demoEngine demoPull 2 rfl (by decide) rfl).2.1 3 (by decide)⟩

/-! ## `filepath.Clean` and `createContainer` -/

theorem cleanLoop_fuel (rooted : Bool) :
    ∀ (fuel1 fuel2 : Nat) (path out : List Char) (dotdot : Nat),
      path.length ≤ fuel1 → path.length ≤ fuel2 →
      cleanLoop rooted fuel1 path out dotdot = cleanLoop rooted fuel2 path out dotdot := by
  intro fuel1
  induction fuel1 with
  | zero =>
    intro fuel2 path out dotdot h1 _
    have : path = [] := List.length_eq_zero.1 (by omega)
    subst this
    cases fuel2 <;> simp [cleanLoop]
  | succ f ih =>
    intro fuel2 path out dotdot h1 h2
    cases path with
    | nil => cases fuel2 <;> simp [cleanLoop]
    | cons c t =>
      obtain ⟨g, rfl⟩ : ∃ g, fuel2 = g + 1 := ⟨fuel2 - 1, by simp at h2; omega⟩
      simp only [List.length_cons] at h1 h2
      have ht : t.length ≤ f := by omega
      have ht2 : t.length ≤ g := by omega
      have htt : t.tail.length ≤ f := by simp; omega
      have htt2 : t.tail.length ≤ g := by simp; omega
      have hd : (t.dropWhile (fun x => decide (x ≠ '/'))).length ≤ f :=
        Nat.le_trans (List.dropWhile_sublist _).length_le ht
      have hd2 : (t.dropWhile (fun x => decide (x ≠ '/'))).length ≤ g :=
        Nat.le_trans (List.dropWhile_sublist _).length_le ht2
      simp only [cleanLoop]
      split_ifs
      all_goals first
        | exact ih g _ _ _ ht ht2
        | exact ih g _ _ _ htt htt2
        | exact ih g _ _ _ hd hd2

theorem backLoop_rooted : ∀ (out : List Char), 1 < out.length → (∃ pre, out = pre ++ ['/']) →
    ∃ pre, backLoop 1 out = pre ++ ['/'] := by
  intro out
  induction out with
  | nil => intro h; simp at h
  | cons c rest ih =>
    intro hlen ⟨pre, hpre⟩
    have hrest : ∃ pre2, rest = pre2 ++ ['/'] := by
      cases pre with
      | nil => simp at hpre; obtain ⟨_, h2⟩ := hpre; subst h2; simp at hlen
      | cons p pre2 => simp at hpre; exact ⟨pre2, hpre.2⟩
    simp only [backLoop]
    split_ifs with h
    · exact ih h.1 hrest
    · exact hrest

theorem ends_slash_append (xs : List Char) (c : Char) (out : List Char)
    (h : ∃ pre, out = pre ++ ['/']) : ∃ pre, xs ++ c :: out = pre ++ ['/'] := by
  obtain ⟨pre, rfl⟩ := h
  exact ⟨xs ++ c :: pre, by simp⟩

theorem cleanLoop_rooted :
    ∀ (fuel : Nat) (path out : List Char), (∃ pre, out = pre ++ ['/']) →
      ∃ pre, cleanLoop true fuel path out 1 = pre ++ ['/'] := by
  intro fuel
  induction fuel with
  | zero => intro path out h; simpa [cleanLoop] using h
  | succ f ih =>
    intro path out h
    cases path with
    | nil => simpa [cleanLoop] using h
    | cons c t =>
      simp only [cleanLoop]
      split_ifs
      all_goals first
        | exact ih _ _ h
        | exact ih _ _ (backLoop_rooted _ (by assumption) h)
        | exact ih _ _ (ends_slash_append _ c _ (ends_slash_append [] '/' _ h))
        | exact ih _ _ (ends_slash_append _ c _ h)
        | contradiction

theorem Clean_rooted (path : List Char) (h : path.head? = some '/') :
    (Clean path).head? = some '/' := by
  have hne : path ≠ [] := by intro h0; simp [h0] at h
  obtain ⟨pre, hpre⟩ := cleanLoop_rooted path.length path.tail ['/'] ⟨[], rfl⟩
  simp [Clean, hne, h, hpre]

theorem Join_two (a b : String) (ha : a ≠ "") :
    Join [a, b] = String.mk (Clean (a.data ++ '/' :: b.data)) := by
  simp [Join, ha, String.intercalate, String.intercalate.go]

theorem Join_abs (a b : String) (ha : IsAbs a = true) : IsAbs (Join [a, b]) = true := by
  have hne : a ≠ "" := by
    intro h0; subst h0; simp [IsAbs] at ha
  rw [Join_two a b hne]
  simp only [IsAbs, decide_eq_true_eq] at ha ⊢
  apply Clean_rooted
  cases hd : a.data with
  | nil => simp [hd] at ha
  | cons x xs => simpa [hd] using ha

theorem makeAbsolute_rel (cli : Engine) (cwd rel : String) (hwd : cli.getwd = .ok cwd)
    (hrel : IsAbs rel = false) : makeAbsolute cli rel = ⟨[], .ret (Join [cwd, rel])⟩ := by
  simp [makeAbsolute, Abs, hrel, hwd]

/-- C6: when the working directory `cwd` is an absolute path, `createContainer`
makes one engine call, the container creation, and its host configuration has
exactly two mounts, both of type bind: the first with source `cwd` joined with
`dir1`, target `/dir1`, read-only; the second with source `cwd` joined with
`dir2`, target `/dir2`, writable; both sources are absolute paths. -/
theorem createContainer_mounts (cli : Engine) (args : List String) (cwd : String)
    (hwd : cli.getwd = .ok cwd) (habs : IsAbs cwd = true) :
    (createContainer cli args).trace =
        [.call (.containerCreate
            { Image := "alpine:latest", Cmd := args }
            { Mounts :=
                [ { Typ := MountType.bind, Source := Join [cwd, "dir1"], Target := "/dir1",
                    ReadOnly := true },
                  { Typ := MountType.bind, Source := Join [cwd, "dir2"], Target := "/dir2",
                    ReadOnly := false } ] }
            { Architecture := "amd64", OS := "linux" } "") (isErr cli.containerCreate)]
      ∧ Join [cwd, "dir1"] = String.mk (Clean (cwd.data ++ "/dir1".data))
      ∧ Join [cwd, "dir2"] = String.mk (Clean (cwd.data ++ "/dir2".data))
      ∧ IsAbs (Join [cwd, "dir1"]) = true
      ∧ IsAbs (Join [cwd, "dir2"]) = true := by
  have hne : cwd ≠ "" := by
    intro h0; subst h0; simp [IsAbs] at habs
  refine ⟨?_, Join_two cwd "dir1" hne, Join_two cwd "dir2" hne, Join_abs cwd _ habs,
    Join_abs cwd _ habs⟩
  rw [createContainer, makeAbsolute_rel cli cwd "dir1" hwd (by decide),
    makeAbsolute_rel cli cwd "dir2" hwd (by decide)]
  cases hc : cli.containerCreate <;> simp [Run.bind, emit, panic, isErr]

/-- The instance of C6 on `demoEngine`, whose working directory is `/w`: the
sources are `/w/dir1` and `/w/dir2`. -/
theorem createContainer_mounts_witness :
    demoEngine.getwd = .ok "/w" ∧ IsAbs "/w" = true
      ∧ (createContainer demoEngine ["uname", "-a"]).trace =
        [.call (.containerCreate
            { Image := "alpine:latest", Cmd := ["uname", "-a"] }
            { Mounts :=
                [ { Typ := MountType.bind, Source := Join ["/w", "dir1"], Target := "/dir1",
                    ReadOnly := true },
                  { Typ := MountType.bind, Source := Join ["/w", "dir2"], Target := "/dir2",
                    ReadOnly := false } ] }
            { Architecture := "amd64", OS := "linux" } "") (isErr demoEngine.containerCreate)]
      ∧ Join ["/w", "dir1"] = "/w/dir1" ∧ Join ["/w", "dir2"] = "/w/dir2" :=
  ⟨rfl, by decide, (createContainer_mounts demoEngine ["uname", "-a"] "/w" rfl (by decide)).1,
    by decide, by decide⟩

/-! ## `bytes.IndexByte` and the lines of a stream -/

theorem indexFrom_shift (c : Char) : ∀ (l : List Char) (k : Nat),
    indexFrom c l k = (indexFrom c l 0).map (fun i => i + k) := by
  intro l
  induction l with
  | nil => intro k; rfl
  | cons x rest ih =>
    intro k
    by_cases h : x = c
    · simp [indexFrom, h]
    · simp only [indexFrom, h, if_false]
      rw [ih (k + 1), ih (0 + 1)]
      cases indexFrom c rest 0 <;> simp [Nat.add_comm, Nat.add_left_comm]

theorem IndexByte_nil (c : Char) : IndexByte [] c = none := rfl

theorem IndexByte_cons (x c : Char) (rest : List Char) :
    IndexByte (x :: rest) c =
      if x = c then some 0 else (IndexByte rest c).map (fun i => i + 1) := by
  simp only [IndexByte, indexFrom]
  split_ifs
  · rfl
  · exact indexFrom_shift c rest (0 + 1)

theorem IndexByte_lt {c : Char} : ∀ {l : List Char} {i : Nat}, IndexByte l c = some i →
    i < l.length := by
  intro l
  induction l with
  | nil => intro i h; simp [IndexByte_nil] at h
  | cons x rest ih =>
    intro i h
    rw [IndexByte_cons] at h
    split_ifs at h with hx
    · simp at h; subst h; simp
    · cases hr : IndexByte rest c with
      | none => simp [hr] at h
      | some j =>
        simp [hr] at h; subst h
        have := ih hr
        simp; omega

theorem IndexByte_append_some {c : Char} : ∀ {a : List Char} (b : List Char) {i : Nat},
    IndexByte a c = some i → IndexByte (a ++ b) c = some i := by
  intro a
  induction a with
  | nil => intro b i h; simp [IndexByte_nil] at h
  | cons x rest ih =>
    intro b i h
    rw [IndexByte_cons] at h
    rw [List.cons_append, IndexByte_cons]
    split_ifs at h ⊢ with hx
    · exact h
    · cases hr : IndexByte rest c with
      | none => simp [hr] at h
      | some j =>
        simp [hr] at h; subst h
        simp [ih b hr]

theorem IndexByte_append_none {c : Char} : ∀ {a : List Char} (b : List Char),
    IndexByte a c = none →
    IndexByte (a ++ b) c = (IndexByte b c).map (fun i => i + a.length) := by
  intro a
  induction a with
  | nil => intro b _; cases hb : IndexByte b c <;> simp [hb]
  | cons x rest ih =>
    intro b h
    rw [IndexByte_cons] at h
    rw [List.cons_append, IndexByte_cons]
    split_ifs at h ⊢ with hx
    have hr : IndexByte rest c = none := by
      cases hr : IndexByte rest c with
      | none => rfl
      | some j => simp [hr] at h
    rw [ih b hr]
    cases IndexByte b c <;> simp [Nat.add_assoc]

theorem IndexByte_prefix_none {c : Char} {a b : List Char}
    (h : IndexByte (a ++ b) c = none) : IndexByte a c = none := by
  cases ha : IndexByte a c with
  | none => rfl
  | some i => rw [IndexByte_append_some b ha] at h; cases h

theorem IndexByte_replicate {c x : Char} (hx : x ≠ c) : ∀ n, IndexByte (List.replicate n x) c = none := by
  intro n
  induction n with
  | zero => rfl
  | succ n ih => rw [List.replicate_succ, IndexByte_cons, if_neg hx, ih]; rfl

theorem linesGo_some : ∀ (data acc : List Char) (i : Nat), IndexByte data '\n' = some i →
    linesGo data acc = (acc.reverse ++ data.take i) :: linesGo (data.drop (i + 1)) [] := by
  intro data
  induction data with
  | nil => intro acc i h; simp [IndexByte_nil] at h
  | cons x rest ih =>
    intro acc i h
    rw [IndexByte_cons] at h
    split_ifs at h with hx
    · simp at h; subst h
      simp [linesGo, hx]
    · cases hr : IndexByte rest '\n' with
      | none => simp [hr] at h
      | some j =>
        simp [hr] at h; subst h
        simp [linesGo, hx, ih (x :: acc) j hr]

theorem linesGo_none : ∀ (data acc : List Char), IndexByte data '\n' = none →
    linesGo data acc = if acc.reverse ++ data = [] then [] else [acc.reverse ++ data] := by
  intro data
  induction data with
  | nil => intro acc _; simp [linesGo]
  | cons x rest ih =>
    intro acc h
    rw [IndexByte_cons] at h
    split_ifs at h with hx
    have hr : IndexByte rest '\n' = none := by
      cases hr : IndexByte rest '\n' with
      | none => rfl
      | some j => simp [hr] at h
    simp [linesGo, hx, ih (x :: acc) hr]

theorem lines_some {data : List Char} {i : Nat} (h : IndexByte data '\n' = some i) :
    lines data = data.take i :: lines (data.drop (i + 1)) := by
  simpa [lines] using linesGo_some data [] i h

theorem lines_none {data : List Char} (h : IndexByte data '\n' = none) (hne : data ≠ []) :
    lines data = [data] := by
  simpa [lines, hne] using linesGo_none data [] h

theorem lines_nil : lines [] = [] := rfl

/-- A stretch of bytes without newline at the head of a stream is part of the
first line. -/
theorem lines_head_length {held : List Char} (data : List Char)
    (h : IndexByte held '\n' = none) (hne : held ≠ []) :
    ∃ l ls, lines (held ++ data) = l :: ls ∧ held.length ≤ l.length := by
  cases hd : IndexByte data '\n' with
  | none =>
    have h2 : IndexByte (held ++ data) '\n' = none := by
      rw [IndexByte_append_none data h, hd]; rfl
    exact ⟨held ++ data, [], lines_none h2 (by simp [hne]), by simp⟩
  | some j =>
    have h2 : IndexByte (held ++ data) '\n' = some (j + held.length) := by
      rw [IndexByte_append_none data h, hd]; rfl
    have hj := IndexByte_lt hd
    exact ⟨_, _, lines_some h2, by simp [List.length_take]⟩

/-! ## One turn of the loop of `Scan` -/

theorem read_empty (r : Stream) (k : Nat) (h : r.data = []) :
    r.read k = ([], some r.fin, r) := by
  simp [Stream.read, h]

theorem read_data (r : Stream) (k : Nat) (h : r.data ≠ []) :
    ∃ m, r.read k = (r.data.take m, none, { r with data := r.data.drop m, sizes := r.sizes.tail })
      ∧ m ≤ k ∧ ((∀ c ∈ r.sizes, 0 < c) → 0 < k → 0 < m) := by
  cases hd : r.data with
  | nil => exact absurd hd h
  | cons x xs =>
    cases hs : r.sizes with
    | nil => exact ⟨k, by simp [Stream.read, hd, hs], Nat.le_refl _, fun _ hk => hk⟩
    | cons c cs =>
      refine ⟨min c k, by simp [Stream.read, hd, hs], Nat.min_le_right _ _, fun hpos hk => ?_⟩
      have := hpos c (by simp)
      omega

theorem setErr_none (s : Scanner) (e : ScanErr) (h : s.err = none) :
    s.setErr e = { s with err := some e } := by
  simp [Scanner.setErr, h]

theorem readLoop_cost : ∀ (n : Nat) (s : Scanner), s.err = none →
    (readLoop n s).cost < s.cost := by
  intro n
  induction n with
  | zero =>
    intro s h
    simp [readLoop, setErr_none s _ h, Scanner.cost, h]
  | succ n ih =>
    intro s h
    by_cases hd : s.r.data = []
    · simp [readLoop, read_empty _ _ hd, Scanner.setErr, h, Scanner.cost]
    · obtain ⟨m, hm, _, _⟩ := read_data s.r (s.bufLen - (s.start + s.held.length)) hd
      simp only [readLoop, hm]
      have hlen : (s.r.data.take m).length + (s.r.data.drop m).length = s.r.data.length := by
        simp [List.length_take, List.length_drop]; omega
      split_ifs with hp
      · simp only [Scanner.cost, h, List.length_append, List.length_tail]
        simp only [if_true]
        omega
      · refine Nat.lt_of_lt_of_le (ih _ h) ?_
        simp only [Scanner.cost, h, List.length_append, List.length_tail]
        simp only [if_true]
        omega

/-- The first read of `readLoop` on a scanner without error, with room in the
buffer and a stream that makes progress: either the stream is exhausted and
its final error is recorded, or some bytes are appended to the buffer. -/
theorem readLoop_first (n : Nat) (s : Scanner) (herr : s.err = none)
    (hroom : s.start + s.held.length < s.bufLen) (hpos : ∀ c ∈ s.r.sizes, 0 < c) :
    (s.r.data = [] ∧ readLoop (n + 1) s = { s with err := some (ScanErr.io s.r.fin) })
      ∨ (s.r.data ≠ [] ∧ ∃ m, 0 < m ∧ m ≤ s.bufLen - (s.start + s.held.length) ∧
          readLoop (n + 1) s =
            { s with r := { s.r with data := s.r.data.drop m, sizes := s.r.sizes.tail },
                     held := s.held ++ s.r.data.take m }) := by
  by_cases hd : s.r.data = []
  · left
    refine ⟨hd, ?_⟩
    simp [readLoop, read_empty _ _ hd, Scanner.setErr, herr]
  · right
    refine ⟨hd, ?_⟩
    obtain ⟨m, hm, hmk, hmpos⟩ := read_data s.r (s.bufLen - (s.start + s.held.length)) hd
    have hm0 : 0 < m := hmpos hpos (by omega)
    refine ⟨m, hm0, hmk, ?_⟩
    have hlen : 0 < (s.r.data.take m).length := by
      cases hdd : s.r.data with
      | nil => exact absurd hdd hd
      | cons x xs => simp [List.length_take]; omega
    simp only [readLoop, hm]
    rw [if_pos hlen]

theorem max_eq : MaxScanTokenSize = 65536 := by decide

theorem maxInt_half : maxInt / 2 = 4611686018427387903 := by decide

/-- Without error and with fewer than `MaxScanTokenSize` bytes held, the second
part of a turn makes room in the buffer and enters the read loop. -/
theorem fill_room (s : Scanner) (herr : s.err = none)
    (hlt : s.held.length < MaxScanTokenSize)
    (hfit : s.start + s.held.length ≤ s.bufLen) (hmax : s.bufLen ≤ MaxScanTokenSize) :
    ∃ bl st, s.fill = Sum.inr (readLoop 101 { s with bufLen := bl, start := st })
      ∧ st + s.held.length < bl ∧ bl ≤ MaxScanTokenSize := by
  rw [max_eq] at hlt hmax
  obtain ⟨r, bl, st, held, tok, err⟩ := s
  simp only [] at herr hlt hfit hmax
  subst herr
  simp only [Scanner.fill, ne_eq, not_true_eq_false, if_false, max_eq, maxInt_half,
    startBufSize]
  split_ifs
  all_goals simp only [] at *
  all_goals first
    | exact ⟨_, _, rfl, by omega, by omega⟩
    | (exfalso; omega)

/-! ## `Scan` and `printLoop` end on every stream -/

theorem split_fields (s : Scanner) :
    s.split.r = s.r ∧ s.split.err = s.err ∧ s.split.bufLen = s.bufLen
      ∧ s.split.held.length ≤ s.held.length := by
  unfold Scanner.split
  split_ifs <;> simp

theorem ScanLines_token {data : List Char} {atEOF : Bool} {t : List Char}
    (h : (ScanLines data atEOF).2 = some t) :
    0 < (ScanLines data atEOF).1 ∧ (ScanLines data atEOF).1 ≤ data.length := by
  unfold ScanLines at h ⊢
  by_cases h1 : atEOF = true ∧ data.length = 0
  · rw [if_pos h1] at h; cases h
  · rw [if_neg h1] at h ⊢
    cases hi : IndexByte data '\n' with
    | some i =>
      have := IndexByte_lt hi
      simp only []
      omega
    | none =>
      simp only [hi] at h ⊢
      by_cases h2 : atEOF = true
      · rw [if_pos h2]
        simp only [h2, true_and] at h1
        simp only [Nat.le_refl, and_true]
        omega
      · rw [if_neg h2] at h; cases h

theorem split_token_cost (s : Scanner)
    (h : s.split.token ≠ none ∧ (0 < s.held.length ∨ s.err ≠ none)) :
    s.split.cost < s.cost := by
  obtain ⟨h1, h2⟩ := h
  have hf := split_fields s
  unfold Scanner.split at h1 ⊢
  rw [if_pos h2] at h1 ⊢
  simp only [] at h1
  cases ht : (ScanLines s.held (decide (s.err ≠ none))).2 with
  | none => exact absurd ht h1
  | some t =>
    have := ScanLines_token ht
    simp only [Scanner.cost, List.length_drop]
    omega

theorem split_cost_le (s : Scanner) : s.split.cost ≤ s.cost := by
  obtain ⟨h1, h2, _, h4⟩ := split_fields s
  simp only [Scanner.cost, h1, h2]
  omega

theorem setErr_cost (s : Scanner) (e : ScanErr) : (s.setErr e).cost ≤ s.cost := by
  obtain ⟨r, bl, st, held, tok, err⟩ := s
  unfold Scanner.setErr
  split_ifs
  · cases err <;> simp [Scanner.cost]
  · exact Nat.le_refl _

theorem fill_cost (s : Scanner) :
    (∀ s2, s.fill = Sum.inl s2 → s2.cost ≤ s.cost)
      ∧ (∀ s2, s.fill = Sum.inr s2 → s2.cost < s.cost) := by
  obtain ⟨r, bl, st, held, tok, err⟩ := s
  unfold Scanner.fill
  cases err with
  | none =>
    simp only [ne_eq, not_true_eq_false, if_false]
    split_ifs
    all_goals refine ⟨fun s2 h2 => ?_, fun s2 h2 => ?_⟩
    all_goals cases h2
    all_goals first
      | (refine Nat.le_trans (setErr_cost _ _) ?_; simp [Scanner.cost])
      | (refine Nat.lt_of_lt_of_le (readLoop_cost _ _ rfl) ?_
         simp [Scanner.cost])
  | some e =>
    simp only [ne_eq, reduceCtorEq, not_false_eq_true, if_true]
    refine ⟨fun s2 h2 => ?_, fun s2 h2 => by cases h2⟩
    simp only [Sum.inl.injEq] at h2
    subst h2
    simp [Scanner.cost]

theorem Scan_total : ∀ (fuel : Nat) (s : Scanner), s.cost < fuel →
    ∃ b s2, Scan fuel s = some (b, s2) ∧ s2.cost ≤ s.cost ∧ (b = true → s2.cost < s.cost) := by
  intro fuel
  induction fuel with
  | zero => intro s h; omega
  | succ f ih =>
    intro s h
    simp only [Scan]
    split_ifs with htok
    · exact ⟨true, _, rfl, split_cost_le s, fun _ => split_token_cost s htok⟩
    · have hle := split_cost_le s
      obtain ⟨hl, hr⟩ := fill_cost s.split
      cases hfill : s.split.fill with
      | inl s2 =>
        refine ⟨false, s2, rfl, Nat.le_trans (hl s2 hfill) hle, fun hb => by cases hb⟩
      | inr s2 =>
        have h2 := hr s2 hfill
        obtain ⟨b, s3, h3, h4, h5⟩ := ih s2 (by omega)
        refine ⟨b, s3, h3, by omega, fun _ => by omega⟩

theorem printLoop_total : ∀ (fuel : Nat) (s : Scanner), s.cost < fuel →
    (printLoop fuel s).val = .ret () := by
  intro fuel
  induction fuel with
  | zero => intro s h; omega
  | succ f ih =>
    intro s h
    obtain ⟨b, s2, h2, h3, h4⟩ := Scan_total (f + 1) s h
    simp only [printLoop, h2]
    cases b with
    | false => rfl
    | true =>
      have := h4 rfl
      have hv := ih s2 (by omega)
      simp [Run.bind, Println, emit, hv]

theorem printLoop_onlyStdout : ∀ (fuel : Nat) (s : Scanner),
    (∀ e ∈ (printLoop fuel s).trace, ∃ text, e = Event.stdout text)
      ∧ ∀ err, (printLoop fuel s).val ≠ .panicked err := by
  intro fuel
  induction fuel with
  | zero => intro s; simp [printLoop, stillRunning]
  | succ f ih =>
    intro s
    simp only [printLoop]
    cases hS : Scan (f + 1) s with
    | none => simp [stillRunning]
    | some p =>
      obtain ⟨b, s2⟩ := p
      cases b with
      | false => simp
      | true =>
        obtain ⟨h1, h2⟩ := ih s2
        simp only [run_bind_eq, Run.bind, Println, emit]
        refine ⟨?_, ?_⟩
        · intro e he
          simp only [List.mem_append, List.mem_singleton] at he
          rcases he with he | he
          · exact ⟨_, he⟩
          · exact h1 e he
        · intro err
          cases hv : (printLoop f s2).val with
          | ret a => simp
          | panicked e2 => exact absurd hv (h2 e2)
          | running => simp

/-! ## `Scan` returns the lines of the stream -/

theorem split_newline (s : Scanner) (i : Nat) (h : IndexByte s.held '\n' = some i) :
    s.split = { s with start := s.start + (i + 1), held := s.held.drop (i + 1),
                       token := some (dropCR (s.held.take i)) }
      ∧ 0 < s.held.length := by
  have hlt := IndexByte_lt h
  have hpos : 0 < s.held.length := by omega
  have hne : ¬ s.held = [] := by
    intro h0; rw [h0] at hpos; simp at hpos
  refine ⟨?_, hpos⟩
  simp [Scanner.split, ScanLines, h, hpos, hne]

theorem split_none (s : Scanner) (h : IndexByte s.held '\n' = none) (herr : s.err = none) :
    s.split = { s with token := if 0 < s.held.length then none else s.token } := by
  obtain ⟨r, bl, st, held, tok, err⟩ := s
  simp only [] at h herr
  subst herr
  by_cases hh : 0 < held.length <;> simp [Scanner.split, ScanLines, h, hh]

theorem split_none_no_token (s : Scanner) (h : IndexByte s.held '\n' = none)
    (herr : s.err = none) :
    ¬ (s.split.token ≠ none ∧ (0 < s.held.length ∨ s.err ≠ none)) := by
  rw [split_none s h herr]
  by_cases hh : 0 < s.held.length <;> simp [hh, herr]

theorem split_final (s : Scanner) (h : IndexByte s.held '\n' = none) (herr : s.err ≠ none)
    (hne : s.held ≠ []) :
    s.split = { s with start := s.start + s.held.length, held := [],
                       token := some (dropCR s.held) } := by
  simp [Scanner.split, ScanLines, h, herr, hne]

theorem split_end (s : Scanner) (herr : s.err ≠ none) (hnil : s.held = []) :
    s.split = { s with token := none } := by
  obtain ⟨r, bl, st, held, tok, err⟩ := s
  simp only [] at herr hnil
  subst hnil
  simp [Scanner.split, ScanLines, herr]

/-- A turn that finds no token in a buffer below the limit reads on: the
scanner it leaves has the same bytes ahead of it and a lower cost. -/
theorem fill_read (s : Scanner) (herr : s.err = none)
    (hlt : s.held.length < MaxScanTokenSize) (hinv : s.Inv) :
    ∃ s2, s.fill = Sum.inr s2 ∧ s2.Inv ∧ s2.held ++ s2.r.data = s.held ++ s.r.data
      ∧ s2.cost < s.cost ∧ (s.r.data ≠ [] → s2.err = none) := by
  obtain ⟨hfit, hmax, hpos, _⟩ := hinv
  obtain ⟨bl, st, hfill, hroom, hbl⟩ := fill_room s herr hlt hfit hmax
  have hcost := (fill_cost s).2 _ hfill
  rcases readLoop_first 100 { s with bufLen := bl, start := st } herr hroom hpos with
    ⟨hd, hrl⟩ | ⟨hd, m, hm0, hmk, hrl⟩
  · simp only [] at hd hrl
    refine ⟨_, hfill, ?_, ?_, hcost, fun h => absurd hd h⟩
    · rw [hrl]
      exact ⟨Nat.le_of_lt hroom, hbl, hpos, Or.inr ⟨rfl, hd⟩⟩
    · rw [hrl]
  · simp only [] at hd hrl hmk
    refine ⟨_, hfill, ?_, ?_, hcost, fun _ => ?_⟩
    · rw [hrl]
      refine ⟨?_, hbl, fun c hc => hpos c (List.mem_of_mem_tail hc), Or.inl herr⟩
      simp only [List.length_append, List.length_take]
      omega
    · rw [hrl]
      simp
    · rw [hrl]
      exact herr

/-- `Scan` on a stream whose lines are all shorter than `MaxScanTokenSize`:
it returns false when no line is left, and otherwise returns true with the
next line, without its trailing carriage return, as token. -/
theorem Scan_line : ∀ (fuel : Nat) (s : Scanner), s.Inv →
    (∀ l ∈ lines (s.held ++ s.r.data), l.length < MaxScanTokenSize) → s.cost < fuel →
    (lines (s.held ++ s.r.data) = [] → ∃ s2, Scan fuel s = some (false, s2))
      ∧ (∀ l ls, lines (s.held ++ s.r.data) = l :: ls →
          ∃ s2, Scan fuel s = some (true, s2) ∧ s2.token = some (dropCR l) ∧ s2.Inv
            ∧ lines (s2.held ++ s2.r.data) = ls ∧ s2.cost < s.cost) := by
  intro fuel
  induction fuel with
  | zero => intro s _ _ h; omega
  | succ f ih =>
    intro s hinv hshort hcost
    cases hi : IndexByte s.held '\n' with
    | some i =>
      -- a full line is in the buffer
      obtain ⟨hsplit, hpos⟩ := split_newline s i hi
      have hlt := IndexByte_lt hi
      have hlines : lines (s.held ++ s.r.data) =
          s.held.take i :: lines (s.held.drop (i + 1) ++ s.r.data) := by
        rw [lines_some (IndexByte_append_some s.r.data hi),
          List.take_append_of_le_length (by omega),
          List.drop_append_of_le_length (by omega)]
      have hScan : Scan (f + 1) s = some (true, s.split) := by
        simp only [Scan]
        rw [if_pos]
        refine ⟨?_, Or.inl hpos⟩
        rw [hsplit]; simp
      refine ⟨fun h0 => ?_, fun l ls hl => ?_⟩
      · rw [hlines] at h0; cases h0
      · rw [hlines] at hl
        simp only [List.cons.injEq] at hl
        obtain ⟨hl1, hl2⟩ := hl
        refine ⟨s.split, hScan, ?_, ?_, ?_, ?_⟩
        · rw [hsplit, ← hl1]
        · rw [hsplit]
          obtain ⟨h1, h2, h3, h4⟩ := hinv
          refine ⟨?_, h2, h3, h4⟩
          simp only [List.length_drop]
          omega
        · rw [hsplit]; exact hl2
        · exact split_token_cost s (by rw [hsplit]; exact ⟨by simp, Or.inl hpos⟩)
    | none =>
      by_cases herr : s.err = none
      · -- no token yet: read more
        have hsplit := split_none s hi herr
        have hlt : s.held.length < MaxScanTokenSize := by
          by_cases hne : s.held = []
          · rw [hne, max_eq]; simp
          · obtain ⟨l, ls, hl, hlen⟩ := lines_head_length s.r.data hi hne
            have := hshort l (by rw [hl]; simp)
            omega
        have hinv1 : s.split.Inv := by rw [hsplit]; exact hinv
        obtain ⟨s2, hfill, hinv2, hrest, hcost2, _⟩ :=
          fill_read s.split (by rw [hsplit]; exact herr) (by rw [hsplit]; exact hlt) hinv1
        have hsc : s.split.cost = s.cost := by rw [hsplit]; rfl
        have hrest2 : s2.held ++ s2.r.data = s.held ++ s.r.data := by
          rw [hrest, hsplit]
        have hScan : Scan (f + 1) s = Scan f s2 := by
          simp only [Scan]
          rw [if_neg (split_none_no_token s hi herr), hfill]
        obtain ⟨ih1, ih2⟩ := ih s2 hinv2 (by rw [hrest2]; exact hshort) (by omega)
        rw [hrest2] at ih1 ih2
        refine ⟨fun h0 => ?_, fun l ls hl => ?_⟩
        · rw [hScan]; exact ih1 h0
        · obtain ⟨s3, h1, h2, h3, h4, h5⟩ := ih2 l ls hl
          exact ⟨s3, by rw [hScan]; exact h1, h2, h3, h4, by omega⟩
      · -- the stream is exhausted
        obtain ⟨h1, h2, h3, h4⟩ := hinv
        have hdata : s.r.data = [] := by
          rcases h4 with h4 | h4
          · exact absurd h4 herr
          · exact h4.2
        by_cases hne : s.held = []
        · have hsplit := split_end s herr hne
          have hfill : s.split.fill = Sum.inl { s.split with start := 0, held := [] } := by
            have : s.split.err ≠ none := by rw [hsplit]; exact herr
            simp [Scanner.fill, this]
          refine ⟨fun _ => ⟨{ s.split with start := 0, held := [] }, ?_⟩, fun l ls hl => ?_⟩
          · simp only [Scan]
            rw [if_neg (by rw [hsplit]; simp), hfill]
          · rw [hne, hdata] at hl; cases hl
        · have hsplit := split_final s hi herr hne
          have hlines : lines (s.held ++ s.r.data) = [s.held] := by
            rw [hdata, List.append_nil]; exact lines_none hi hne
          have hpos : 0 < s.held.length := List.length_pos.2 hne
          refine ⟨fun h0 => ?_, fun l ls hl => ?_⟩
          · rw [hlines] at h0; cases h0
          · rw [hlines] at hl
            simp only [List.cons.injEq] at hl
            obtain ⟨hl1, hl2⟩ := hl
            refine ⟨s.split, ?_, ?_, ?_, ?_, ?_⟩
            · simp only [Scan]
              rw [if_pos]
              refine ⟨?_, Or.inl hpos⟩
              rw [hsplit]; simp
            · rw [hsplit, ← hl1]
            · rw [hsplit]
              exact ⟨by simp only [List.length_nil]; omega, h2, h3, h4⟩
            · rw [hsplit, ← hl2, hdata]; rfl
            · exact split_token_cost s (by rw [hsplit]; exact ⟨by simp, Or.inl hpos⟩)

/-- The print loop on a stream whose lines are all shorter than
`MaxScanTokenSize` writes every line, in order, and returns. -/
theorem printLoop_lines : ∀ (fuel : Nat) (s : Scanner), s.Inv →
    (∀ l ∈ lines (s.held ++ s.r.data), l.length < MaxScanTokenSize) → s.cost < fuel →
    printLoop fuel s =
      ⟨(lines (s.held ++ s.r.data)).map (fun l => Event.stdout (String.mk (dropCR l) ++ "\n")),
        .ret ()⟩ := by
  intro fuel
  induction fuel with
  | zero => intro s _ _ h; omega
  | succ f ih =>
    intro s hinv hshort hcost
    obtain ⟨h1, h2⟩ := Scan_line (f + 1) s hinv hshort hcost
    cases hl : lines (s.held ++ s.r.data) with
    | nil =>
      obtain ⟨s2, hs2⟩ := h1 hl
      simp [printLoop, hs2]
    | cons l ls =>
      obtain ⟨s2, hs2, htok, hinv2, hrest, hc2⟩ := h2 l ls hl
      have hshort2 : ∀ l ∈ lines (s2.held ++ s2.r.data), l.length < MaxScanTokenSize := by
        intro x hx
        rw [hrest] at hx
        exact hshort x (by rw [hl]; exact List.mem_cons_of_mem _ hx)
      have := ih s2 hinv2 hshort2 (by omega)
      simp [printLoop, hs2, Run.bind, Println, emit, this, hrest, Scanner.Text, htok]

theorem NewScanner_inv (r : Stream) (hpos : ∀ c ∈ r.sizes, 0 < c) : (NewScanner r).Inv :=
  ⟨by simp [NewScanner], by simp [NewScanner, max_eq], hpos, Or.inl rfl⟩

theorem NewScanner_cost (r : Stream) :
    (NewScanner r).cost = 2 * r.data.length + r.sizes.length + 1 := by
  simp [NewScanner, Scanner.cost]

/-! ## A line of `MaxScanTokenSize` bytes or more stops the scanner -/

theorem fill_full (s : Scanner) (herr : s.err = none) (hinv : s.Inv)
    (hfull : s.held.length = MaxScanTokenSize) :
    s.fill = Sum.inl { s with err := some ScanErr.tooLong } := by
  obtain ⟨hfit, hmax, _, _⟩ := hinv
  obtain ⟨r, bl, st, held, tok, err⟩ := s
  simp only [] at herr hfit hmax hfull
  subst herr
  have hst : st = 0 := by omega
  have hbl : bl = MaxScanTokenSize := by omega
  subst hst
  simp [Scanner.fill, Scanner.setErr, hfull, hbl]

theorem Scan_tooLong : ∀ (fuel : Nat) (s : Scanner), s.Inv → s.err = none →
    IndexByte ((s.held ++ s.r.data).take MaxScanTokenSize) '\n' = none →
    MaxScanTokenSize ≤ (s.held ++ s.r.data).length → s.cost < fuel →
    ∃ s2, Scan fuel s = some (false, s2) := by
  intro fuel
  induction fuel with
  | zero => intro s _ _ _ _ h; omega
  | succ f ih =>
    intro s hinv herr hnone hlong hcost
    have hle : s.held.length ≤ MaxScanTokenSize := by
      obtain ⟨h1, h2, _, _⟩ := hinv
      omega
    have hi : IndexByte s.held '\n' = none := by
      rw [List.take_append_eq_append_take, List.take_of_length_le hle] at hnone
      exact IndexByte_prefix_none hnone
    have hsplit := split_none s hi herr
    have hinv1 : s.split.Inv := by rw [hsplit]; exact hinv
    have herr1 : s.split.err = none := by rw [hsplit]; exact herr
    by_cases hfull : s.held.length = MaxScanTokenSize
    · refine ⟨{ s.split with err := some ScanErr.tooLong }, ?_⟩
      simp only [Scan]
      rw [if_neg (split_none_no_token s hi herr),
        fill_full s.split herr1 hinv1 (by rw [hsplit]; exact hfull)]
    · have hdata : s.r.data ≠ [] := by
        intro h0
        rw [h0, List.append_nil] at hlong
        omega
      obtain ⟨s2, hfill, hinv2, hrest, hcost2, herr2⟩ :=
        fill_read s.split herr1 (by rw [hsplit]; simp only []; omega) hinv1
      have hsc : s.split.cost = s.cost := by rw [hsplit]; rfl
      have hrest2 : s2.held ++ s2.r.data = s.held ++ s.r.data := by rw [hrest, hsplit]
      have hScan : Scan (f + 1) s = Scan f s2 := by
        simp only [Scan]
        rw [if_neg (split_none_no_token s hi herr), hfill]
      rw [hScan]
      exact ih s2 hinv2 (herr2 (by rw [hsplit]; exact hdata)) (by rw [hrest2]; exact hnone)
        (by rw [hrest2]; exact hlong) (by omega)

theorem printLoop_tooLong (fuel : Nat) (r : Stream) (hpos : ∀ c ∈ r.sizes, 0 < c)
    (hnone : IndexByte (r.data.take MaxScanTokenSize) '\n' = none)
    (hlong : MaxScanTokenSize ≤ r.data.length)
    (hfuel : 2 * r.data.length + r.sizes.length + 1 < fuel) :
    printLoop fuel (NewScanner r) = ⟨[], .ret ()⟩ := by
  obtain ⟨f, rfl⟩ : ∃ f, fuel = f + 1 := ⟨fuel - 1, by omega⟩
  obtain ⟨s2, hs2⟩ := Scan_tooLong (f + 1) (NewScanner r) (NewScanner_inv r hpos) rfl
    (by simpa [NewScanner] using hnone) (by simpa [NewScanner] using hlong)
    (by rw [NewScanner_cost]; exact hfuel)
  simp [printLoop, hs2]

/-! ## `dumpContainerLogs` -/

/-- What `dumpContainerLogs` does on short lines: on a log stream none of whose
reads is empty and all of whose lines are shorter than `MaxScanTokenSize` =
65536 bytes, it makes the logs call and then writes every line of the stream,
in stream order, each followed by a newline and without the carriage return
that may end it; and it returns. -/
theorem dumpContainerLogs_prints_short_lines (fuel : Nat) (cli : Engine) (id : String)
    (out : Stream) (hlogs : cli.containerLogs = .ok out)
    (hpos : ∀ c ∈ out.sizes, 0 < c)
    (hshort : ∀ l ∈ lines out.data, l.length < MaxScanTokenSize)
    (hfuel : 2 * out.data.length + out.sizes.length + 1 < fuel) :
    dumpContainerLogs fuel cli id =
      ⟨.call (.containerLogs id true) false ::
          (lines out.data).map (fun l => Event.stdout (String.mk (dropCR l) ++ "\n")),
        .ret ()⟩ := by
  have h := printLoop_lines fuel (NewScanner out) (NewScanner_inv out hpos)
    (by simpa [NewScanner] using hshort) (by rw [NewScanner_cost]; exact hfuel)
  simp only [NewScanner, List.nil_append] at h
  simp [dumpContainerLogs, hlogs, Run.bind, emit, isErr, NewScanner, h]

/-- The log stream of `demoEngine`: its four lines are written, the first without
its carriage return. -/
theorem dumpContainerLogs_prints_short_lines_witness :
    demoEngine.containerLogs = .ok demoLogs
      ∧ (∀ c ∈ demoLogs.sizes, 0 < c)
      ∧ (∀ l ∈ lines demoLogs.data, l.length < MaxScanTokenSize)
      ∧ lines demoLogs.data = ["Linux\r".data, "abc".data, [], "xyz".data]
      ∧ dumpContainerLogs 40 demoEngine "c1" =
          ⟨.call (.containerLogs "c1" true) false ::
              (lines demoLogs.data).map (fun l => Event.stdout (String.mk (dropCR l) ++ "\n")),
            .ret ()⟩
      ∧ dumpContainerLogs 40 demoEngine "c1" =
          ⟨[.call (.containerLogs "c1" true) false, .stdout "Linux\n", .stdout "abc\n",
            .stdout "\n", .stdout "xyz\n"], .ret ()⟩ :=
  ⟨rfl, by decide, by decide, by decide,
    dumpContainerLogs_prints_short_lines 40 demoEngine "c1" demoLogs rfl (by decide) (by decide)
      (by decide),
    by decide⟩

theorem lines_longLine :
    lines longLineLogs.data = [List.replicate 65536 'a', ['b']] := by
  have h0 : IndexByte (List.replicate 65536 'a') '\n' = none :=
    IndexByte_replicate (by decide) 65536
  have h1 : IndexByte longLineLogs.data '\n' = some 65536 := by
    show IndexByte (List.replicate 65536 'a' ++ ['\n', 'b', '\n']) '\n' = some 65536
    rw [IndexByte_append_none _ h0, List.length_replicate]
    rfl
  have h2 : IndexByte ['b', '\n'] '\n' = some 1 := by decide
  have hlen : (List.replicate 65536 'a').length = 65536 := List.length_replicate _ _
  rw [lines_some h1]
  show List.take 65536 (List.replicate 65536 'a' ++ ['\n', 'b', '\n']) ::
      lines (List.drop (65536 + 1) (List.replicate 65536 'a' ++ ['\n', 'b', '\n'])) = _
  rw [List.take_left' hlen, List.drop_append_eq_append_drop,
    List.drop_of_length_le (by rw [hlen]; omega), hlen]
  rw [show (65536 + 1 - 65536 : Nat) = 1 from rfl]
  rw [show ([] : List Char) ++ List.drop 1 ['\n', 'b', '\n'] = ['b', '\n'] from rfl,
    lines_some h2]
  rfl

/-- C8: the code does not print the logs completely.  The log stream
`longLineLogs` has two lines, of 65536 bytes and of one byte; on it
`dumpContainerLogs` makes the logs call, writes neither line and returns
normally, with any number of turns that lets the scanner finish. -/
theorem dumpContainerLogs_drops_lines :
    longLineEngine.containerLogs = .ok longLineLogs
      ∧ lines longLineLogs.data = [List.replicate 65536 'a', ['b']]
      ∧ dumpContainerLogs 131080 longLineEngine "c1" =
          ⟨[.call (.containerLogs "c1" true) false], .ret ()⟩
      ∧ (∀ fuel, 131079 < fuel →
          dumpContainerLogs fuel longLineEngine "c1" =
            ⟨[.call (.containerLogs "c1" true) false], .ret ()⟩) := by
  have hlen : longLineLogs.data.length = 65539 := by
    show (List.replicate 65536 'a' ++ ['\n', 'b', '\n']).length = 65539
    rw [List.length_append, List.length_replicate]
    rfl
  have hsizes : longLineLogs.sizes = [] := rfl
  have hl : longLineEngine.containerLogs = .ok longLineLogs := rfl
  have hall : ∀ fuel, 131079 < fuel →
      dumpContainerLogs fuel longLineEngine "c1" =
        ⟨[.call (.containerLogs "c1" true) false], .ret ()⟩ := by
    intro fuel hfuel
    have h := printLoop_tooLong fuel longLineLogs
      (by rw [hsizes]; intro c hc; cases hc)
      (by
        show IndexByte (List.take MaxScanTokenSize
          (List.replicate 65536 'a' ++ ['\n', 'b', '\n'])) '\n' = none
        rw [max_eq, List.take_left' (List.length_replicate _ _)]
        exact IndexByte_replicate (by decide) 65536)
      (by rw [hlen, max_eq]; omega)
      (by rw [hlen, hsizes]; simp only [List.length_nil]; omega)
    simp only [dumpContainerLogs, hl, run_bind_eq, Run.bind, emit, isErr, h, List.append_nil]
  exact ⟨hl, lines_longLine, hall 131080 (by decide), hall⟩

/-- More than `maxConsecutiveEmptyReads` empty reads in a row stop the scanner
as well: the log stream `stalledLogs` has one line of two bytes, and
`dumpContainerLogs` does not write it. -/
theorem dumpContainerLogs_stalled :
    lines stalledLogs.data = [['a', 'b']]
      ∧ dumpContainerLogs 120 stalledEngine "c1" =
          ⟨[.call (.containerLogs "c1" true) false], .ret ()⟩ :=
  ⟨by decide, by decide⟩

/-! ## The functions of `main.go` when their calls succeed -/

@[simp] theorem callsOf_nil : callsOf [] = [] := rfl

@[simp] theorem callsOf_call (c : Call) (b : Bool) (t : List Event) :
    callsOf (.call c b :: t) = c :: callsOf t := rfl

@[simp] theorem callsOf_stdout (x : String) (t : List Event) :
    callsOf (.stdout x :: t) = callsOf t := rfl

@[simp] theorem callsOf_append (a b : List Event) : callsOf (a ++ b) = callsOf a ++ callsOf b := by
  induction a with
  | nil => rfl
  | cons e t ih => cases e <;> simp [ih]

theorem callsOf_onlyStdout (t : List Event) (h : ∀ e ∈ t, ∃ text, e = Event.stdout text) :
    callsOf t = [] := by
  induction t with
  | nil => rfl
  | cons e t ih =>
    obtain ⟨text, rfl⟩ := h e (List.mem_cons_self _ _)
    simpa using ih (fun x hx => h x (List.mem_cons_of_mem _ hx))

@[simp] theorem callsOf_printLoop (fuel : Nat) (s : Scanner) :
    callsOf (printLoop fuel s).trace = [] :=
  callsOf_onlyStdout _ (printLoop_onlyStdout fuel s).1

theorem pullImage_ok (fuel : Nat) (cli : Engine) (out : PullStream) (n : Nat)
    (hpull : cli.imagePull = .ok out) (hdrain : drain out fuel 0 = some n) :
    pullImage fuel cli = ⟨[.call (.imagePull "alpine:latest" "amd64") false], .ret ()⟩ := by
  simp [pullImage, hpull, Run.bind, emit, isErr, hdrain]

theorem pullImage_running (fuel : Nat) (cli : Engine) (out : PullStream)
    (hpull : cli.imagePull = .ok out) (hdrain : drain out fuel 0 = none) :
    pullImage fuel cli = ⟨[.call (.imagePull "alpine:latest" "amd64") false], .running⟩ := by
  simp [pullImage, hpull, Run.bind, emit, isErr, hdrain, stillRunning]

/-- The host configuration `createContainer` builds in the working directory
`cwd`. -/
theorem createContainer_ok (cli : Engine) (args : List String) (cwd id : String)
    (hwd : cli.getwd = .ok cwd) (hcreate : cli.containerCreate = .ok id) :
    createContainer cli args =
      ⟨[.call (.containerCreate
            { Image := "alpine:latest", Cmd := args }
            { Mounts :=
                [ { Typ := MountType.bind, Source := Join [cwd, "dir1"], Target := "/dir1",
                    ReadOnly := true },
                  { Typ := MountType.bind, Source := Join [cwd, "dir2"], Target := "/dir2",
                    ReadOnly := false } ] }
            { Architecture := "amd64", OS := "linux" } "") false], .ret id⟩ := by
  rw [createContainer, makeAbsolute_rel cli cwd "dir1" hwd (by decide),
    makeAbsolute_rel cli cwd "dir2" hwd (by decide)]
  simp [Run.bind, emit, isErr, hcreate]

theorem createContainer_nowd (cli : Engine) (args : List String) (err : String)
    (hwd : cli.getwd = .error err) : createContainer cli args = ⟨[], .panicked err⟩ := by
  simp [createContainer, makeAbsolute, Abs, IsAbs, hwd, Run.bind, panic]

theorem dumpContainerLogs_ok (fuel : Nat) (cli : Engine) (id : String) (logs : Stream)
    (hlogs : cli.containerLogs = .ok logs) :
    dumpContainerLogs fuel cli id =
      ⟨.call (.containerLogs id true) false :: (printLoop fuel (NewScanner logs)).trace,
        (printLoop fuel (NewScanner logs)).val⟩ := by
  simp [dumpContainerLogs, hlogs, Run.bind, emit, isErr]

theorem dumpContainerLogs_error (fuel : Nat) (cli : Engine) (id err : String)
    (hlogs : cli.containerLogs = .error err) :
    dumpContainerLogs fuel cli id = ⟨[.call (.containerLogs id true) true], .panicked err⟩ := by
  simp [dumpContainerLogs, hlogs, Run.bind, emit, isErr, panic]

theorem imageRemove_ok (cli : Engine) (images : List ImageSummary)
    (hlist : cli.imageList = .ok images) (hrm : cli.imageRemove = none) :
    imageRemove cli =
      ⟨[.call .imageList false, .call (.imageRemove (imageLoop images) true) false], .ret ()⟩ := by
  simp [imageRemove, identifyImage_ok cli images hlist, Run.bind, emit, failed, hrm]

/-- The call and the message with which `watchContainer` begins. -/
theorem watchContainer_eq (fuel : Nat) (cli : Engine) (id : String) :
    watchContainer fuel cli id =
      Run.bind ⟨waitEvents id cli.containerWait, .ret ()⟩
        (fun _ => Run.bind (dumpContainerLogs fuel cli id) (fun _ => imageRemove cli)) := by
  unfold watchContainer
  cases hw : cli.containerWait with
  | interrupt => simp [Run.bind, emit, Println, waitEvents]
  | daemonErr err => cases err <;> simp [Run.bind, emit, Println, failed, waitEvents]
  | exited n => simp [Run.bind, emit, waitEvents]

theorem callsOf_waitEvents (id : String) (w : WaitOutcome) :
    callsOf (waitEvents id w) = [.containerWait id "not-running"] := by
  cases w with
  | interrupt => rfl
  | daemonErr err => cases err <;> rfl
  | exited n => rfl

theorem formatInt_eq_toString (n : Int) : formatInt n = toString n := by
  cases n with
  | ofNat m => rfl
  | negSucc m =>
    have h : Int.negSucc m < 0 := Int.negSucc_lt_zero m
    simp only [formatInt, h, if_true]
    rfl

/-! ## `watchContainer` -/

/-- C5: `watchContainer` treats the three ways the wait can end alike.  After
the wait call it writes `(caught SIGINT)` for an interrupt, `(exited with n)`
with `n` in decimal for an exit with status `n`, and `An error occured with the
docker daemon` for a daemon error; in each case it goes on with
`dumpContainerLogs` and then `imageRemove`, and when the logs call, the image
list and the image removal succeed its engine calls are, in this order, the
wait, the logs, the image list and the image removal, with the log output
written between the logs call and the image list call. -/
theorem watchContainer_three_ways (fuel : Nat) (cli : Engine) (id : String)
    (w : WaitOutcome) (first : List Event) (hw : cli.containerWait = w)
    (hcase :
      (w = .interrupt ∧
        first = [.call (.containerWait id "not-running") false, .stdout "(caught SIGINT)\n"])
      ∨ (∃ n : Int, w = .exited n ∧
          first = [.call (.containerWait id "not-running") false,
                   .stdout ("(exited with " ++ toString n ++ ")\n")])
      ∨ (∃ e : String, w = .daemonErr (some e) ∧
          first = [.call (.containerWait id "not-running") true,
                   .stdout "An error occured with the docker daemon\n"])) :
    watchContainer fuel cli id =
        Run.bind ⟨first, .ret ()⟩
          (fun _ => Run.bind (dumpContainerLogs fuel cli id) (fun _ => imageRemove cli))
      ∧ ∀ (logs : Stream) (images : List ImageSummary),
          cli.containerLogs = .ok logs → cli.imageList = .ok images → cli.imageRemove = none →
          2 * logs.data.length + logs.sizes.length + 1 < fuel →
          watchContainer fuel cli id =
              ⟨first ++ .call (.containerLogs id true) false ::
                  ((printLoop fuel (NewScanner logs)).trace ++
                    [.call .imageList false, .call (.imageRemove (imageLoop images) true) false]),
                .ret ()⟩
            ∧ (∀ e ∈ (printLoop fuel (NewScanner logs)).trace, ∃ text, e = Event.stdout text)
            ∧ callsOf (watchContainer fuel cli id).trace =
                [.containerWait id "not-running", .containerLogs id true, .imageList,
                 .imageRemove (imageLoop images) true] := by
  have h1 : watchContainer fuel cli id =
      Run.bind ⟨first, .ret ()⟩
        (fun _ => Run.bind (dumpContainerLogs fuel cli id) (fun _ => imageRemove cli)) := by
    rw [watchContainer_eq, hw]
    rcases hcase with ⟨rfl, rfl⟩ | ⟨n, rfl, rfl⟩ | ⟨e, rfl, rfl⟩
    · rfl
    · simp only [waitEvents, formatInt_eq_toString]
    · rfl
  refine ⟨h1, fun logs images hlogs hlist hrm hfuel => ?_⟩
  have hv : (printLoop fuel (NewScanner logs)).val = .ret () :=
    printLoop_total fuel _ (by rw [NewScanner_cost]; exact hfuel)
  have h2 : watchContainer fuel cli id =
      ⟨first ++ .call (.containerLogs id true) false ::
          ((printLoop fuel (NewScanner logs)).trace ++
            [.call .imageList false, .call (.imageRemove (imageLoop images) true) false]),
        .ret ()⟩ := by
    rw [h1, dumpContainerLogs_ok fuel cli id logs hlogs, imageRemove_ok cli images hlist hrm]
    simp [Run.bind, hv]
  refine ⟨h2, (printLoop_onlyStdout fuel _).1, ?_⟩
  rw [h2]
  rcases hcase with ⟨_, rfl⟩ | ⟨n, _, rfl⟩ | ⟨e, _, rfl⟩ <;> simp

/-- The instance of C5 on `demoEngine`, whose container exits with status 0. -/
theorem watchContainer_three_ways_witness :
    demoEngine.containerWait = .exited 0
      ∧ watchContainer 40 demoEngine "c1" =
          ⟨[.call (.containerWait "c1" "not-running") false, .stdout "(exited with 0)\n",
            .call (.containerLogs "c1" true) false] ++
              ((printLoop 40 (NewScanner demoLogs)).trace ++
                [.call .imageList false, .call (.imageRemove "sha256:2" true) false]),
            .ret ()⟩ :=
  ⟨rfl,
    ((watchContainer_three_ways 40 demoEngine "c1" (.exited 0)
      [.call (.containerWait "c1" "not-running") false, .stdout "(exited with 0)\n"] rfl
      (Or.inr (Or.inl ⟨0, rfl, rfl⟩))).2 demoLogs demoImages rfl rfl rfl (by decide)).1⟩

/-! ## `runContainer` -/

theorem getLast?_cons_append_three {α : Type} (x : α) (t : List α) (a b c : α) :
    (x :: (t ++ [a, b, c])).getLast? = some c := by
  have h : x :: (t ++ [a, b, c]) = (x :: t ++ [a, b]) ++ [c] := by simp
  rw [h, List.getLast?_concat]

/-- A run of `runContainer` up to the start call, when the pull and the
creation succeed. -/
theorem runContainer_started (fuel : Nat) (cli : Engine) (args : List String)
    (out : PullStream) (n : Nat) (cwd id : String)
    (hpull : cli.imagePull = .ok out) (hdrain : drain out fuel 0 = some n)
    (hwd : cli.getwd = .ok cwd) (hcreate : cli.containerCreate = .ok id) :
    runContainer fuel cli args =
      Run.bind
        ⟨[.call (.imagePull "alpine:latest" "amd64") false, .call (createCall cwd args) false,
          .call (.containerStart id) (failed cli.containerStart)], .ret ()⟩
        (fun _ => Run.bind (watchContainer fuel cli id)
          (fun _ => emit (.call (.containerRemove id true) (failed cli.containerRemove)))) := by
  unfold runContainer
  rw [pullImage_ok fuel cli out n hpull hdrain, createContainer_ok cli args cwd id hwd hcreate]
  simp [Run.bind, emit, createCall]

/-- A run of `runContainer` in which the pull, the creation, the logs call, the
image list and the image removal succeed, whatever the replies to the start,
the wait and the container removal. -/
theorem runContainer_through (fuel : Nat) (cli : Engine) (args : List String)
    (out : PullStream) (n : Nat) (cwd id : String) (logs : Stream)
    (images : List ImageSummary)
    (hpull : cli.imagePull = .ok out) (hdrain : drain out fuel 0 = some n)
    (hwd : cli.getwd = .ok cwd) (hcreate : cli.containerCreate = .ok id)
    (hlogs : cli.containerLogs = .ok logs) (hlist : cli.imageList = .ok images)
    (hrm : cli.imageRemove = none)
    (hfuel : 2 * logs.data.length + logs.sizes.length + 1 < fuel) :
    (runContainer fuel cli args).val = .ret ()
      ∧ (runContainer fuel cli args).trace.getLast? =
          some (.call (.containerRemove id true) (failed cli.containerRemove))
      ∧ callsOf (runContainer fuel cli args).trace =
          [.imagePull "alpine:latest" "amd64", createCall cwd args, .containerStart id,
           .containerWait id "not-running", .containerLogs id true, .imageList,
           .imageRemove (imageLoop images) true, .containerRemove id true] := by
  have hv : (printLoop fuel (NewScanner logs)).val = .ret () :=
    printLoop_total fuel _ (by rw [NewScanner_cost]; exact hfuel)
  rw [runContainer_started fuel cli args out n cwd id hpull hdrain hwd hcreate,
    watchContainer_eq, dumpContainerLogs_ok fuel cli id logs hlogs,
    imageRemove_ok cli images hlist hrm]
  cases hw : cli.containerWait with
  | interrupt =>
    refine ⟨by simp [Run.bind, hv, emit],
      by simp [Run.bind, hv, emit, getLast?_cons_append_three, waitEvents], ?_⟩
    simp [Run.bind, hv, emit, waitEvents]
  | daemonErr err =>
    cases err with
    | none =>
      refine ⟨by simp [Run.bind, hv, emit],
        by simp [Run.bind, hv, emit, getLast?_cons_append_three, waitEvents], ?_⟩
      simp [Run.bind, hv, emit, waitEvents]
    | some e =>
      refine ⟨by simp [Run.bind, hv, emit],
        by simp [Run.bind, hv, emit, getLast?_cons_append_three, waitEvents], ?_⟩
      simp [Run.bind, hv, emit, waitEvents]
  | exited code =>
    refine ⟨by simp [Run.bind, hv, emit],
      by simp [Run.bind, hv, emit, getLast?_cons_append_three, waitEvents], ?_⟩
    simp [Run.bind, hv, emit, waitEvents]

@[simp] theorem kind_createCall (cwd : String) (args : List String) :
    (createCall cwd args).kind = Kind.containerCreate := rfl

/-- In every run of `runContainer`, whatever the engine replies, the engine
calls made follow `runOrder`: their operations form an initial part of it. -/
theorem runContainer_kinds_initial (fuel : Nat) (cli : Engine) (args : List String) :
    (callsOf (runContainer fuel cli args).trace).map Call.kind <+: runOrder := by
  cases hpull : cli.imagePull with
  | error err => simp [runContainer, pullImage, hpull, Run.bind, emit, panic, runOrder, Call.kind]
  | ok out =>
    cases hdrain : drain out fuel 0 with
    | none =>
      rw [runContainer, pullImage_running fuel cli out hpull hdrain]
      simp [Run.bind, runOrder, Call.kind]
    | some n =>
      cases hwd : cli.getwd with
      | error err =>
        rw [runContainer, pullImage_ok fuel cli out n hpull hdrain,
          createContainer_nowd cli args err hwd]
        simp [Run.bind, runOrder, Call.kind]
      | ok cwd =>
        cases hcreate : cli.containerCreate with
        | error err =>
          rw [runContainer, pullImage_ok fuel cli out n hpull hdrain,
            createContainer, makeAbsolute_rel cli cwd "dir1" hwd (by decide),
            makeAbsolute_rel cli cwd "dir2" hwd (by decide)]
          simp [Run.bind, emit, panic, hcreate, runOrder, Call.kind]
        | ok id =>
          rw [runContainer_started fuel cli args out n cwd id hpull hdrain hwd hcreate,
            watchContainer_eq]
          have hfc := callsOf_waitEvents id cli.containerWait
          cases hlogs : cli.containerLogs with
          | error err =>
            rw [dumpContainerLogs_error fuel cli id err hlogs]
            simp [Run.bind, emit, runOrder, Call.kind, createCall, hfc]
          | ok logs =>
            rw [dumpContainerLogs_ok fuel cli id logs hlogs]
            cases hv : (printLoop fuel (NewScanner logs)).val with
            | panicked e => simp [Run.bind, emit, runOrder, Call.kind, createCall, hfc, hv]
            | running => simp [Run.bind, emit, runOrder, Call.kind, createCall, hfc, hv]
            | ret u =>
              cases hlist : cli.imageList with
              | error err =>
                simp [Run.bind, emit, runOrder, Call.kind, createCall, hfc, hv, imageRemove, identifyImage,
                  hlist, panic, isErr]
              | ok images =>
                cases hrm : cli.imageRemove with
                | some err =>
                  simp [Run.bind, emit, runOrder, Call.kind, createCall, hfc, hv, imageRemove, identifyImage,
                    hlist, panic, isErr, hrm, failed]
                | none =>
                  simp [Run.bind, emit, runOrder, Call.kind, createCall, hfc, hv, imageRemove, identifyImage,
                    hlist, panic, isErr, hrm, failed]

/-- C1: on a run of `runContainer` in which every engine call succeeds and the
container exits by itself, the engine calls made follow the order image pull,
container create, container start, container wait, container logs, image list,
image remove, container remove; and when the working directory is known and
the pull response and the log stream are read to their end, all eight calls
are made, in this order, so that both removals come after the logs call. -/
theorem runContainer_call_order (fuel : Nat) (cli : Engine) (args : List String)
    (out : PullStream) (id : String) (code : Int) (logs : Stream) (images : List ImageSummary)
    (hpull : cli.imagePull = .ok out) (hcreate : cli.containerCreate = .ok id)
    (hstart : cli.containerStart = none) (hwait : cli.containerWait = .exited code)
    (hlogs : cli.containerLogs = .ok logs) (hlist : cli.imageList = .ok images)
    (hrm : cli.imageRemove = none) (hcrm : cli.containerRemove = none) :
    (callsOf (runContainer fuel cli args).trace).map Call.kind <+:
        [.imagePull, .containerCreate, .containerStart, .containerWait, .containerLogs,
         .imageList, .imageRemove, .containerRemove]
      ∧ (∀ (cwd : String) (n : Nat), cli.getwd = .ok cwd → drain out fuel 0 = some n →
          2 * logs.data.length + logs.sizes.length + 1 < fuel →
          runContainer fuel cli args =
              ⟨[.call (.imagePull "alpine:latest" "amd64") false,
                .call (createCall cwd args) false,
                .call (.containerStart id) false,
                .call (.containerWait id "not-running") false,
                .stdout ("(exited with " ++ toString code ++ ")\n"),
                .call (.containerLogs id true) false] ++
                  (printLoop fuel (NewScanner logs)).trace ++
                [.call .imageList false,
                 .call (.imageRemove (imageLoop images) true) false,
                 .call (.containerRemove id true) false], .ret ()⟩
            ∧ callsOf (runContainer fuel cli args).trace =
                [.imagePull "alpine:latest" "amd64", createCall cwd args, .containerStart id,
                 .containerWait id "not-running", .containerLogs id true, .imageList,
                 .imageRemove (imageLoop images) true, .containerRemove id true]) := by
  refine ⟨runContainer_kinds_initial fuel cli args, fun cwd n hwd hdrain hfuel => ?_⟩
  obtain ⟨_, _, h3⟩ := runContainer_through fuel cli args out n cwd id logs images hpull hdrain
    hwd hcreate hlogs hlist hrm hfuel
  refine ⟨?_, h3⟩
  have hv : (printLoop fuel (NewScanner logs)).val = .ret () :=
    printLoop_total fuel _ (by rw [NewScanner_cost]; exact hfuel)
  rw [runContainer_started fuel cli args out n cwd id hpull hdrain hwd hcreate,
    watchContainer_eq, dumpContainerLogs_ok fuel cli id logs hlogs,
    imageRemove_ok cli images hlist hrm, hwait]
  simp [Run.bind, hv, emit, hstart, hcrm, failed, formatInt_eq_toString, waitEvents]

/-- The instance of C1 on `demoEngine`. -/
theorem runContainer_call_order_witness :
    demoEngine.containerWait = .exited 0
      ∧ (callsOf (runContainer 40 demoEngine ["uname", "-a"]).trace).map Call.kind <+:
          [.imagePull, .containerCreate, .containerStart, .containerWait, .containerLogs,
           .imageList, .imageRemove, .containerRemove]
      ∧ callsOf (runContainer 40 demoEngine ["uname", "-a"]).trace =
          [.imagePull "alpine:latest" "amd64", createCall "/w" ["uname", "-a"],
           .containerStart "c1", .containerWait "c1" "not-running", .containerLogs "c1" true,
           .imageList, .imageRemove (imageLoop demoImages) true, .containerRemove "c1" true] :=
  ⟨rfl,
    (runContainer_call_order 40 demoEngine ["uname", "-a"] demoPull "c1" 0 demoLogs demoImages
      rfl rfl rfl rfl rfl rfl rfl rfl).1,
    ((runContainer_call_order 40 demoEngine ["uname", "-a"] demoPull "c1" 0 demoLogs demoImages
      rfl rfl rfl rfl rfl rfl rfl rfl).2 "/w" 3 rfl (by decide) (by decide)).2⟩

/-- C2, counterexample: on `demoEngine` every engine call succeeds, the run
returns, and the image removal call is made before the container removal call,
which is the last call of the run. -/
theorem runContainer_image_removed_first :
    (runContainer 40 demoEngine ["uname", "-a"]).val = .ret ()
      ∧ (∀ c b, Event.call c b ∈ (runContainer 40 demoEngine ["uname", "-a"]).trace → b = false)
      ∧ callsOf (runContainer 40 demoEngine ["uname", "-a"]).trace =
          [.imagePull "alpine:latest" "amd64", createCall "/w" ["uname", "-a"],
           .containerStart "c1", .containerWait "c1" "not-running", .containerLogs "c1" true,
           .imageList, .imageRemove "sha256:2" true, .containerRemove "c1" true] := by
  have h : runContainer 40 demoEngine ["uname", "-a"] =
      ⟨[.call (.imagePull "alpine:latest" "amd64") false,
        .call (createCall "/w" ["uname", "-a"]) false,
        .call (.containerStart "c1") false,
        .call (.containerWait "c1" "not-running") false,
        .stdout "(exited with 0)\n",
        .call (.containerLogs "c1" true) false,
        .stdout "Linux\n", .stdout "abc\n", .stdout "\n", .stdout "xyz\n",
        .call .imageList false,
        .call (.imageRemove "sha256:2" true) false,
        .call (.containerRemove "c1" true) false], .ret ()⟩ := by decide
  rw [h]
  refine ⟨rfl, ?_, rfl⟩
  intro c b hmem
  simp only [List.mem_cons, Event.call.injEq, reduceCtorEq, List.mem_singleton,
    List.not_mem_nil, or_false, false_or] at hmem
  rcases hmem with h | h | h | h | h | h | h | h <;> exact h.2

/-- C2, amended: on every run of `runContainer` in which every engine call
succeeds, whatever way the wait ends, the image removal call is made before the
container removal call: the calls of the run end with the image removal
followed by the container removal, and neither removal is made earlier. -/
theorem runContainer_removal_order (fuel : Nat) (cli : Engine) (args : List String)
    (out : PullStream) (n : Nat) (cwd id : String) (logs : Stream)
    (images : List ImageSummary)
    (hpull : cli.imagePull = .ok out) (hdrain : drain out fuel 0 = some n)
    (hwd : cli.getwd = .ok cwd) (hcreate : cli.containerCreate = .ok id)
    (hlogs : cli.containerLogs = .ok logs) (hlist : cli.imageList = .ok images)
    (hrm : cli.imageRemove = none)
    (hfuel : 2 * logs.data.length + logs.sizes.length + 1 < fuel) :
    ∃ before : List Call,
      callsOf (runContainer fuel cli args).trace =
          before ++ [.imageRemove (imageLoop images) true, .containerRemove id true]
        ∧ Kind.imageRemove ∉ before.map Call.kind
        ∧ Kind.containerRemove ∉ before.map Call.kind := by
  obtain ⟨_, _, h3⟩ := runContainer_through fuel cli args out n cwd id logs images hpull hdrain
    hwd hcreate hlogs hlist hrm hfuel
  refine ⟨[.imagePull "alpine:latest" "amd64", createCall cwd args, .containerStart id,
    .containerWait id "not-running", .containerLogs id true, .imageList], ?_, ?_, ?_⟩
  · rw [h3]; rfl
  · simp [Call.kind, createCall]
  · simp [Call.kind, createCall]

/-- The instance of the amended C2 on `demoEngine`. -/
theorem runContainer_removal_order_witness :
    ∃ before : List Call,
      callsOf (runContainer 40 demoEngine ["uname", "-a"]).trace =
          before ++ [.imageRemove (imageLoop demoImages) true, .containerRemove "c1" true]
        ∧ Kind.imageRemove ∉ before.map Call.kind
        ∧ Kind.containerRemove ∉ before.map Call.kind :=
  runContainer_removal_order 40 demoEngine ["uname", "-a"] demoPull 3 "/w" "c1" demoLogs
    demoImages rfl (by decide) rfl rfl rfl rfl rfl (by decide)

/-- C4, counterexample: on `logsErrorEngine` the container is created, the logs
call fails, and the run ends in a panic without any container removal call. -/
theorem runContainer_no_removal_after_logs_error :
    runContainer 40 logsErrorEngine ["uname", "-a"] =
        ⟨[.call (.imagePull "alpine:latest" "amd64") false,
          .call (createCall "/w" ["uname", "-a"]) false,
          .call (.containerStart "c1") false,
          .call (.containerWait "c1" "not-running") false,
          .stdout "(exited with 0)\n",
          .call (.containerLogs "c1" true) true], .panicked "no such container"⟩
      ∧ Kind.containerRemove ∉
          (callsOf (runContainer 40 logsErrorEngine ["uname", "-a"]).trace).map Call.kind := by
  have h : runContainer 40 logsErrorEngine ["uname", "-a"] =
        ⟨[.call (.imagePull "alpine:latest" "amd64") false,
          .call (createCall "/w" ["uname", "-a"]) false,
          .call (.containerStart "c1") false,
          .call (.containerWait "c1" "not-running") false,
          .stdout "(exited with 0)\n",
          .call (.containerLogs "c1" true) true], .panicked "no such container"⟩ := by decide
  refine ⟨h, ?_⟩
  rw [h]
  decide

/-! ## Errors -/

theorem panicsAtError_bind {α β : Type} (m : Run α) (f : α → Run β)
    (hm : PanicsAtError m) (hf : ∀ a, m.val = .ret a → PanicsAtError (f a)) :
    PanicsAtError (m.bind f) := by
  intro pre c suf htrace hkind
  cases hv : m.val with
  | ret a =>
    simp only [Run.bind, hv] at htrace ⊢
    rcases List.append_eq_append_iff.1 htrace with ⟨a2, hpre, hfa⟩ | ⟨c2, hmt, hc2⟩
    · exact hf a hv a2 c suf hfa hkind
    · cases c2 with
      | nil =>
        simp only [List.nil_append] at hc2
        exact hf a hv [] c suf (by simpa using hc2.symm) hkind
      | cons x xs =>
        simp only [List.cons_append, List.cons.injEq] at hc2
        obtain ⟨hx, _⟩ := hc2
        subst hx
        obtain ⟨_, e, he⟩ := hm pre c xs hmt hkind
        rw [hv] at he
        cases he
  | panicked e =>
    simp only [Run.bind, hv] at htrace ⊢
    exact ⟨(hm pre c suf htrace hkind).1, e, rfl⟩
  | running =>
    simp only [Run.bind, hv] at htrace ⊢
    obtain ⟨_, e, he⟩ := hm pre c suf htrace hkind
    rw [hv] at he
    cases he

theorem panicsAtError_of_not_mem {α : Type} (r : Run α)
    (h : ∀ c, Event.call c true ∈ r.trace → c.kind ∉ panicKinds) : PanicsAtError r := by
  intro pre c suf htrace hkind
  exact absurd hkind (h c (by rw [htrace]; simp))

theorem panicsAtError_failed {α : Type} (c : Call) (e : String) :
    PanicsAtError (⟨[.call c true], .panicked e⟩ : Run α) := by
  intro pre c2 suf htrace _
  refine ⟨?_, e, rfl⟩
  cases pre with
  | nil =>
    have h2 : c2 = c ∧ suf = [] := by simpa using htrace.symm
    exact h2.2
  | cons x xs =>
    simp only [List.cons_append, List.cons.injEq] at htrace
    obtain ⟨_, h2⟩ := htrace
    cases xs <;> simp at h2

theorem panicsAtError_pullImage (fuel : Nat) (cli : Engine) :
    PanicsAtError (pullImage fuel cli) := by
  cases hpull : cli.imagePull with
  | error err =>
    have : pullImage fuel cli =
        ⟨[.call (.imagePull "alpine:latest" "amd64") true], .panicked err⟩ := by
      simp [pullImage, hpull, Run.bind, emit, panic, isErr]
    rw [this]
    exact panicsAtError_failed _ _
  | ok out =>
    apply panicsAtError_of_not_mem
    intro c hc
    cases hdrain : drain out fuel 0 with
    | none => rw [pullImage_running fuel cli out hpull hdrain] at hc; simp at hc
    | some n => rw [pullImage_ok fuel cli out n hpull hdrain] at hc; simp at hc

theorem panicsAtError_createContainer (cli : Engine) (args : List String) :
    PanicsAtError (createContainer cli args) := by
  cases hwd : cli.getwd with
  | error err =>
    rw [createContainer_nowd cli args err hwd]
    exact panicsAtError_of_not_mem _ (by simp)
  | ok cwd =>
    cases hcreate : cli.containerCreate with
    | error err =>
      have : createContainer cli args =
          ⟨[.call (createCall cwd args) true], .panicked err⟩ := by
        rw [createContainer, makeAbsolute_rel cli cwd "dir1" hwd (by decide),
          makeAbsolute_rel cli cwd "dir2" hwd (by decide)]
        simp [Run.bind, emit, panic, isErr, hcreate, createCall]
      rw [this]
      exact panicsAtError_failed _ _
    | ok id =>
      rw [createContainer_ok cli args cwd id hwd hcreate]
      exact panicsAtError_of_not_mem _ (by simp)

theorem panicsAtError_dumpContainerLogs (fuel : Nat) (cli : Engine) (id : String) :
    PanicsAtError (dumpContainerLogs fuel cli id) := by
  cases hlogs : cli.containerLogs with
  | error err =>
    rw [dumpContainerLogs_error fuel cli id err hlogs]
    exact panicsAtError_failed _ _
  | ok logs =>
    rw [dumpContainerLogs_ok fuel cli id logs hlogs]
    apply panicsAtError_of_not_mem
    intro c hc
    simp only [List.mem_cons, Event.call.injEq, reduceCtorEq, and_false, false_or] at hc
    obtain ⟨text, ht⟩ := (printLoop_onlyStdout fuel (NewScanner logs)).1 _ hc
    cases ht

theorem panicsAtError_imageRemove (cli : Engine) : PanicsAtError (imageRemove cli) := by
  cases hlist : cli.imageList with
  | error err =>
    have : imageRemove cli = ⟨[.call .imageList true], .panicked err⟩ := by
      simp [imageRemove, identifyImage, hlist, Run.bind, emit, panic, isErr]
    rw [this]
    exact panicsAtError_failed _ _
  | ok images =>
    cases hrm : cli.imageRemove with
    | none =>
      rw [imageRemove_ok cli images hlist hrm]
      exact panicsAtError_of_not_mem _ (by simp)
    | some err =>
      have : imageRemove cli =
          Run.bind ⟨[.call .imageList false], .ret ()⟩
            (fun _ => ⟨[.call (.imageRemove (imageLoop images) true) true], .panicked err⟩) := by
        simp [imageRemove, identifyImage_ok cli images hlist, Run.bind, emit, panic, failed, hrm]
      rw [this]
      exact panicsAtError_bind _ _ (panicsAtError_of_not_mem _ (by simp))
        (fun _ _ => panicsAtError_failed _ _)

theorem panicsAtError_watchContainer (fuel : Nat) (cli : Engine) (id : String) :
    PanicsAtError (watchContainer fuel cli id) := by
  rw [watchContainer_eq]
  refine panicsAtError_bind _ _ (panicsAtError_of_not_mem _ ?_)
    (fun _ _ => panicsAtError_bind _ _ (panicsAtError_dumpContainerLogs fuel cli id)
      (fun _ _ => panicsAtError_imageRemove cli))
  intro c hc
  cases hw : cli.containerWait with
  | interrupt => simp [hw, waitEvents] at hc
  | daemonErr err =>
    cases err with
    | none => simp [hw, waitEvents] at hc
    | some e =>
      simp [hw, waitEvents] at hc
      subst hc
      simp [Call.kind, panicKinds]
  | exited n => simp [hw, waitEvents] at hc

theorem panicsAtError_emit_other (c : Call) (b : Bool) (h : c.kind ∉ panicKinds) :
    PanicsAtError (emit (.call c b)) := by
  apply panicsAtError_of_not_mem
  intro c2 hc
  simp only [emit, List.mem_singleton, Event.call.injEq] at hc
  rw [hc.1]
  exact h

theorem panicsAtError_runContainer (fuel : Nat) (cli : Engine) (args : List String) :
    PanicsAtError (runContainer fuel cli args) := by
  unfold runContainer
  simp only [run_bind_eq]
  refine panicsAtError_bind _ _ (panicsAtError_pullImage fuel cli) (fun _ _ => ?_)
  refine panicsAtError_bind _ _ (panicsAtError_createContainer cli args) (fun id _ => ?_)
  refine panicsAtError_bind _ _
    (panicsAtError_emit_other _ _ (by simp [Call.kind, panicKinds])) (fun _ _ => ?_)
  refine panicsAtError_bind _ _ (panicsAtError_watchContainer fuel cli id) (fun _ _ => ?_)
  exact panicsAtError_emit_other _ _ (by simp [Call.kind, panicKinds])

theorem panicsAtError_main (fuel : Nat) (cli : Engine) (osArgs : List String) :
    PanicsAtError (main fuel cli osArgs) := by
  cases hnew : cli.newClient with
  | some err =>
    have : main fuel cli osArgs = ⟨[.call .newClient true], .panicked err⟩ := by
      simp [main, hnew, Run.bind, emit, panic, failed]
    rw [this]
    exact panicsAtError_failed _ _
  | none =>
    cases osArgs with
    | nil =>
      have : main fuel cli [] =
          ⟨[.call .newClient false],
            .panicked "runtime error: slice bounds out of range [1:0]"⟩ := by
        simp [main, hnew, Run.bind, emit, panic, failed]
      rw [this]
      exact panicsAtError_of_not_mem _ (by simp)
    | cons prog rest =>
      have : main fuel cli (prog :: rest) =
          Run.bind ⟨[.call .newClient false,
              .stdout (String.intercalate " "
                (if rest.length = 0 then ["uname", "-a"] else rest) ++ "\n")], .ret ()⟩
            (fun _ => runContainer fuel cli
              (if rest.length = 0 then ["uname", "-a"] else rest)) := by
        simp [main, hnew, Run.bind, emit, Println, failed]
      rw [this]
      exact panicsAtError_bind _ _ (panicsAtError_of_not_mem _ (by simp))
        (fun _ _ => panicsAtError_runContainer fuel cli _)

/-! ## `main` -/

theorem main_eq (fuel : Nat) (cli : Engine) (prog : String) (rest : List String)
    (hnew : cli.newClient = none) :
    main fuel cli (prog :: rest) =
      Run.bind ⟨[.call .newClient false,
          .stdout (String.intercalate " "
            (if rest = [] then ["uname", "-a"] else rest) ++ "\n")], .ret ()⟩
        (fun _ => runContainer fuel cli (if rest = [] then ["uname", "-a"] else rest)) := by
  simp [main, hnew, Run.bind, emit, Println, failed]

/-- C3, counterexample: on `waitErrorEngine` the container wait reports an
error, and the program does not panic: it writes a message, makes four more
engine calls and returns. -/
theorem main_continues_after_wait_error :
    main 40 waitErrorEngine ["moby-demo"] =
      ⟨[.call .newClient false,
        .stdout "uname -a\n",
        .call (.imagePull "alpine:latest" "amd64") false,
        .call (createCall "/w" ["uname", "-a"]) false,
        .call (.containerStart "c1") false,
        .call (.containerWait "c1" "not-running") true,
        .stdout "An error occured with the docker daemon\n",
        .call (.containerLogs "c1" true) false,
        .stdout "Linux\n", .stdout "abc\n", .stdout "\n", .stdout "xyz\n",
        .call .imageList false,
        .call (.imageRemove "sha256:2" true) false,
        .call (.containerRemove "c1" true) false], .ret ()⟩ := by
  decide

/-- C3, amended: for client creation, image pull, container create, container
logs, image list and image remove, a call that reports an error is the last
event of the run and the run ends in a panic; an error delivered by the
container wait does not end the run: the message `An error occured with the
docker daemon` is written and the logs call is made next. -/
theorem main_panics_at_error (fuel : Nat) (cli : Engine) (osArgs : List String) :
    (∀ (pre : List Event) (c : Call) (suf : List Event),
        (main fuel cli osArgs).trace = pre ++ Event.call c true :: suf →
        c.kind ∈ [Kind.newClient, Kind.imagePull, Kind.containerCreate, Kind.containerLogs,
                  Kind.imageList, Kind.imageRemove] →
        suf = [] ∧ ∃ e, (main fuel cli osArgs).val = .panicked e)
      ∧ (∀ (prog : String) (rest : List String) (out : PullStream) (n : Nat)
          (cwd id e : String),
          osArgs = prog :: rest → cli.newClient = none → cli.imagePull = .ok out →
          drain out fuel 0 = some n → cli.getwd = .ok cwd → cli.containerCreate = .ok id →
          cli.containerWait = .daemonErr (some e) →
          ∃ tail : List Event,
            (main fuel cli osArgs).trace =
              [.call .newClient false,
               .stdout (String.intercalate " "
                 (if rest = [] then ["uname", "-a"] else rest) ++ "\n"),
               .call (.imagePull "alpine:latest" "amd64") false,
               .call (createCall cwd (if rest = [] then ["uname", "-a"] else rest)) false,
               .call (.containerStart id) (failed cli.containerStart),
               .call (.containerWait id "not-running") true,
               .stdout "An error occured with the docker daemon\n",
               .call (.containerLogs id true) (isErr cli.containerLogs)] ++ tail) := by
  refine ⟨panicsAtError_main fuel cli osArgs, ?_⟩
  intro prog rest out n cwd id e hargs hnew hpull hdrain hwd hcreate hwait
  subst hargs
  rw [main_eq fuel cli prog rest hnew,
    runContainer_started fuel cli _ out n cwd id hpull hdrain hwd hcreate,
    watchContainer_eq, hwait]
  cases hlogs : cli.containerLogs with
  | error err =>
    rw [dumpContainerLogs_error fuel cli id err hlogs]
    exact ⟨[], by simp [Run.bind, waitEvents, isErr]⟩
  | ok logs =>
    rw [dumpContainerLogs_ok fuel cli id logs hlogs]
    cases hv : (printLoop fuel (NewScanner logs)).val with
    | ret u =>
      exact ⟨(printLoop fuel (NewScanner logs)).trace ++
        ((imageRemove cli).bind fun _ =>
          emit (.call (.containerRemove id true) (failed cli.containerRemove))).trace,
        by
          cases hi : (imageRemove cli).val <;>
            simp [Run.bind, waitEvents, isErr, hv, hi]⟩
    | panicked e2 =>
      exact ⟨(printLoop fuel (NewScanner logs)).trace, by simp [Run.bind, waitEvents, isErr, hv]⟩
    | running =>
      exact ⟨(printLoop fuel (NewScanner logs)).trace, by simp [Run.bind, waitEvents, isErr, hv]⟩

theorem mem_callsOf {c : Call} {b : Bool} : ∀ {t : List Event}, Event.call c b ∈ t →
    c ∈ callsOf t := by
  intro t
  induction t with
  | nil => intro h; cases h
  | cons e rest ih =>
    intro h
    rcases List.mem_cons.1 h with h1 | h1
    · subst h1; simp
    · have := ih h1
      cases e <;> simp [this]

/-- Every container creation call of a run of `runContainer` carries the image
`alpine:latest` and the argument list as command. -/
theorem runContainer_create_conf (fuel : Nat) (cli : Engine) (args : List String)
    (conf : Config) (host : HostConfig) (plat : Platform) (name : String) (b : Bool)
    (hmem : Event.call (.containerCreate conf host plat name) b ∈
      (runContainer fuel cli args).trace) :
    conf = { Image := "alpine:latest", Cmd := args } := by
  cases hpull : cli.imagePull with
  | error err =>
    simp [runContainer, pullImage, hpull, Run.bind, emit, panic] at hmem
  | ok out =>
    cases hdrain : drain out fuel 0 with
    | none =>
      rw [runContainer, pullImage_running fuel cli out hpull hdrain] at hmem
      simp [Run.bind] at hmem
    | some n =>
      cases hwd : cli.getwd with
      | error err =>
        rw [runContainer, pullImage_ok fuel cli out n hpull hdrain,
          createContainer_nowd cli args err hwd] at hmem
        simp [Run.bind] at hmem
      | ok cwd =>
        cases hcreate : cli.containerCreate with
        | error err =>
          rw [runContainer, pullImage_ok fuel cli out n hpull hdrain,
            createContainer, makeAbsolute_rel cli cwd "dir1" hwd (by decide),
            makeAbsolute_rel cli cwd "dir2" hwd (by decide)] at hmem
          simp [Run.bind, emit, panic, hcreate] at hmem
          exact hmem.1.1
        | ok id =>
          have hinit := runContainer_kinds_initial fuel cli args
          rw [runContainer_started fuel cli args out n cwd id hpull hdrain hwd hcreate]
            at hmem hinit
          simp only [Run.bind, List.mem_append, List.mem_cons, Event.call.injEq,
            reduceCtorEq, false_and, false_or, List.not_mem_nil, or_false] at hmem
          rcases hmem with h | h
          · simp only [createCall, Call.containerCreate.injEq] at h
            exact h.1.1
          · exfalso
            have hc := mem_callsOf h
            have hk : Kind.containerCreate ∈
                (callsOf (Run.bind (watchContainer fuel cli id) fun _ =>
                  emit (.call (.containerRemove id true)
                    (failed cli.containerRemove))).trace).map Call.kind :=
              List.mem_map.2 ⟨_, hc, rfl⟩
            have hp : (callsOf (Run.bind (watchContainer fuel cli id) fun _ =>
                  emit (.call (.containerRemove id true)
                    (failed cli.containerRemove))).trace).map Call.kind <+:
                [Kind.containerWait, Kind.containerLogs, Kind.imageList, Kind.imageRemove,
                 Kind.containerRemove] := by
              have h3 : (callsOf (Run.bind
                  (⟨[.call (.imagePull "alpine:latest" "amd64") false,
                     .call (createCall cwd args) false,
                     .call (.containerStart id) (failed cli.containerStart)], .ret ()⟩ : Run Unit)
                  (fun _ => Run.bind (watchContainer fuel cli id) fun _ =>
                    emit (.call (.containerRemove id true)
                      (failed cli.containerRemove)))).trace).map Call.kind =
                  [Kind.imagePull, Kind.containerCreate, Kind.containerStart] ++
                    (callsOf (Run.bind (watchContainer fuel cli id) fun _ =>
                      emit (.call (.containerRemove id true)
                        (failed cli.containerRemove))).trace).map Call.kind := by
                simp [Run.bind, Call.kind, createCall]
              rw [h3] at hinit
              exact (List.prefix_append_right_inj _).1 hinit
            have := hp.subset hk
            simp at this

/-- C7: for the argument list `rest` given after the program name, the command
of every container creation call of the run is `rest` unchanged when `rest` is
non-empty and `uname -a` when it is empty, so it is never empty, and its image
is `alpine:latest`; after a successful client creation the run begins with the
client creation and the line made of the elements of that command joined by
single spaces, followed by the run of `runContainer` on that command; and the
creation call is made when the pull succeeds and the working directory is
known. -/
theorem main_command (fuel : Nat) (cli : Engine) (prog : String) (rest : List String) :
    (∀ (conf : Config) (host : HostConfig) (plat : Platform) (name : String) (b : Bool),
        Event.call (.containerCreate conf host plat name) b ∈
          (main fuel cli (prog :: rest)).trace →
        conf.Image = "alpine:latest" ∧ conf.Cmd ≠ []
          ∧ (rest ≠ [] → conf.Cmd = rest) ∧ (rest = [] → conf.Cmd = ["uname", "-a"]))
      ∧ (cli.newClient = none →
          main fuel cli (prog :: rest) =
            Run.bind ⟨[.call .newClient false,
                .stdout (String.intercalate " "
                  (if rest = [] then ["uname", "-a"] else rest) ++ "\n")], .ret ()⟩
              (fun _ => runContainer fuel cli (if rest = [] then ["uname", "-a"] else rest)))
      ∧ (∀ (out : PullStream) (n : Nat) (cwd : String),
          cli.newClient = none → cli.imagePull = .ok out → drain out fuel 0 = some n →
          cli.getwd = .ok cwd →
          Event.call (createCall cwd (if rest = [] then ["uname", "-a"] else rest))
              (isErr cli.containerCreate) ∈ (main fuel cli (prog :: rest)).trace) := by
  refine ⟨?_, main_eq fuel cli prog rest, ?_⟩
  · intro conf host plat name b hmem
    cases hnew : cli.newClient with
    | some err => simp [main, hnew, Run.bind, emit, panic] at hmem
    | none =>
      rw [main_eq fuel cli prog rest hnew] at hmem
      simp only [Run.bind, List.mem_append, List.mem_cons, reduceCtorEq, Event.call.injEq,
        false_and, false_or, List.not_mem_nil] at hmem
      have hconf := runContainer_create_conf fuel cli _ conf host plat name b hmem
      subst hconf
      by_cases hr : rest = []
      · simp [hr]
      · simp [hr]
  · intro out n cwd hnew hpull hdrain hwd
    rw [main_eq fuel cli prog rest hnew, runContainer, pullImage_ok fuel cli out n hpull hdrain,
      createContainer, makeAbsolute_rel cli cwd "dir1" hwd (by decide),
      makeAbsolute_rel cli cwd "dir2" hwd (by decide)]
    cases hcreate : cli.containerCreate <;>
      simp [Run.bind, emit, panic, isErr, createCall]

/-- An instance of C7 on `demoEngine`, with two arguments after the program
name. -/
theorem main_command_witness :
    main 40 demoEngine ["moby-demo", "echo", "hi"] =
        Run.bind ⟨[.call .newClient false, .stdout "echo hi\n"], .ret ()⟩
          (fun _ => runContainer 40 demoEngine ["echo", "hi"])
      ∧ Event.call (createCall "/w" ["echo", "hi"]) false ∈
          (main 40 demoEngine ["moby-demo", "echo", "hi"]).trace :=
  ⟨(main_command 40 demoEngine "moby-demo" ["echo", "hi"]).2.1 rfl,
    (main_command 40 demoEngine "moby-demo" ["echo", "hi"]).2.2 demoPull 3 "/w" rfl rfl
      (by decide) rfl⟩

/-! ## The container removal -/

theorem runOrder_removal_last :
    ∀ n, n ≤ 8 → ∀ k ∈ [Kind.containerLogs, Kind.imageList, Kind.imageRemove],
      (runOrder.take n).getLast? = some k → Kind.containerRemove ∉ runOrder.take n := by
  decide

/-- A run of `runContainer` whose last call is the logs call, the image list or
the image removal has made no container removal call. -/
theorem runContainer_no_removal (fuel : Nat) (cli : Engine) (args : List String)
    (pre : List Event) (c : Call) (b : Bool)
    (htrace : (runContainer fuel cli args).trace = pre ++ [Event.call c b])
    (hkind : c.kind ∈ [Kind.containerLogs, Kind.imageList, Kind.imageRemove]) :
    Kind.containerRemove ∉ (callsOf (runContainer fuel cli args).trace).map Call.kind := by
  have hinit := runContainer_kinds_initial fuel cli args
  have hlast : ((callsOf (runContainer fuel cli args).trace).map Call.kind).getLast? =
      some c.kind := by
    rw [htrace]
    simp
  rw [List.prefix_iff_eq_take.1 hinit] at hlast ⊢
  have hlen : ((callsOf (runContainer fuel cli args).trace).map Call.kind).length ≤ 8 :=
    hinit.length_le
  exact runOrder_removal_last _ hlen c.kind hkind hlast

/-- C4, amended: for every run of `runContainer` in which the container
creation succeeds: when the logs call, the image list and the image removal
succeed, whatever the replies to the start, the wait and the container removal
itself, the run returns and its last event is the forced removal of the created
container; when the logs call, the image list or the image removal reports an
error, the run ends in a panic with that error, the failed call is its last
call, and no container removal call is made. -/
theorem runContainer_removes_container (fuel : Nat) (cli : Engine) (args : List String)
    (out : PullStream) (n : Nat) (cwd id : String)
    (hpull : cli.imagePull = .ok out) (hdrain : drain out fuel 0 = some n)
    (hwd : cli.getwd = .ok cwd) (hcreate : cli.containerCreate = .ok id) :
    (∀ (logs : Stream) (images : List ImageSummary),
        cli.containerLogs = .ok logs → cli.imageList = .ok images → cli.imageRemove = none →
        2 * logs.data.length + logs.sizes.length + 1 < fuel →
        (runContainer fuel cli args).val = .ret ()
          ∧ Event.call (createCall cwd args) false ∈ (runContainer fuel cli args).trace
          ∧ (runContainer fuel cli args).trace.getLast? =
              some (.call (.containerRemove id true) (failed cli.containerRemove))
          ∧ (callsOf (runContainer fuel cli args).trace).getLast? =
              some (.containerRemove id true))
      ∧ (∀ e : String, cli.containerLogs = .error e →
          (runContainer fuel cli args).val = .panicked e
            ∧ callsOf (runContainer fuel cli args).trace =
                [.imagePull "alpine:latest" "amd64", createCall cwd args, .containerStart id,
                 .containerWait id "not-running", .containerLogs id true])
      ∧ (∀ (logs : Stream) (e : String), cli.containerLogs = .ok logs →
          2 * logs.data.length + logs.sizes.length + 1 < fuel → cli.imageList = .error e →
          (runContainer fuel cli args).val = .panicked e
            ∧ callsOf (runContainer fuel cli args).trace =
                [.imagePull "alpine:latest" "amd64", createCall cwd args, .containerStart id,
                 .containerWait id "not-running", .containerLogs id true, .imageList])
      ∧ (∀ (logs : Stream) (images : List ImageSummary) (e : String),
          cli.containerLogs = .ok logs →
          2 * logs.data.length + logs.sizes.length + 1 < fuel → cli.imageList = .ok images →
          cli.imageRemove = some e →
          (runContainer fuel cli args).val = .panicked e
            ∧ callsOf (runContainer fuel cli args).trace =
                [.imagePull "alpine:latest" "amd64", createCall cwd args, .containerStart id,
                 .containerWait id "not-running", .containerLogs id true, .imageList,
                 .imageRemove (imageLoop images) true])
      ∧ (∀ (pre : List Event) (c : Call) (suf : List Event),
          (runContainer fuel cli args).trace = pre ++ Event.call c true :: suf →
          c.kind ∈ [Kind.containerLogs, Kind.imageList, Kind.imageRemove] →
          suf = [] ∧ (∃ e, (runContainer fuel cli args).val = .panicked e)
            ∧ Kind.containerRemove ∉
                (callsOf (runContainer fuel cli args).trace).map Call.kind) := by
  have hstarted := runContainer_started fuel cli args out n cwd id hpull hdrain hwd hcreate
  refine ⟨?_, ?_, ?_, ?_, ?_⟩
  · intro logs images hlogs hlist hrm hfuel
    obtain ⟨h1, h2, h3⟩ := runContainer_through fuel cli args out n cwd id logs images hpull
      hdrain hwd hcreate hlogs hlist hrm hfuel
    refine ⟨h1, ?_, h2, by rw [h3]; rfl⟩
    rw [hstarted]
    simp [Run.bind]
  · intro e hlogs
    rw [hstarted, watchContainer_eq, dumpContainerLogs_error fuel cli id e hlogs]
    simp [Run.bind, callsOf_waitEvents]
  · intro logs e hlogs hfuel hlist
    have hv : (printLoop fuel (NewScanner logs)).val = .ret () :=
      printLoop_total fuel _ (by rw [NewScanner_cost]; exact hfuel)
    have him : imageRemove cli = ⟨[.call .imageList true], .panicked e⟩ := by
      simp [imageRemove, identifyImage, hlist, Run.bind, emit, panic, isErr]
    rw [hstarted, watchContainer_eq, dumpContainerLogs_ok fuel cli id logs hlogs, him]
    simp [Run.bind, callsOf_waitEvents, hv]
  · intro logs images e hlogs hfuel hlist hrm
    have hv : (printLoop fuel (NewScanner logs)).val = .ret () :=
      printLoop_total fuel _ (by rw [NewScanner_cost]; exact hfuel)
    have him : imageRemove cli =
        ⟨[.call .imageList false, .call (.imageRemove (imageLoop images) true) true],
          .panicked e⟩ := by
      simp [imageRemove, identifyImage_ok cli images hlist, Run.bind, emit, panic, failed, hrm]
    rw [hstarted, watchContainer_eq, dumpContainerLogs_ok fuel cli id logs hlogs, him]
    simp [Run.bind, callsOf_waitEvents, hv]
  · intro pre c suf htrace hkind
    have hk : c.kind ∈ panicKinds := by
      simp only [List.mem_cons, List.mem_singleton, List.not_mem_nil, or_false] at hkind
      rcases hkind with h | h | h <;> rw [h] <;> decide
    obtain ⟨hsuf, he⟩ := panicsAtError_runContainer fuel cli args pre c suf htrace hk
    subst hsuf
    exact ⟨rfl, he, runContainer_no_removal fuel cli args pre c true htrace hkind⟩

/-- Instances of the amended C4: on `waitErrorEngine`, where the wait delivers a
daemon error, the run returns and ends with the container removal; on
`listErrorEngine` and `removeErrorEngine` the run panics at the failed call
without a container removal. -/
theorem runContainer_removes_container_witness :
    (waitErrorEngine.containerWait = .daemonErr (some "connection reset")
      ∧ (runContainer 40 waitErrorEngine ["uname", "-a"]).val = .ret ()
      ∧ (runContainer 40 waitErrorEngine ["uname", "-a"]).trace.getLast? =
          some (.call (.containerRemove "c1" true) (failed waitErrorEngine.containerRemove)))
      ∧ ((runContainer 40 listErrorEngine ["uname", "-a"]).val = .panicked "daemon unreachable"
        ∧ callsOf (runContainer 40 listErrorEngine ["uname", "-a"]).trace =
            [.imagePull "alpine:latest" "amd64", createCall "/w" ["uname", "-a"],
             .containerStart "c1", .containerWait "c1" "not-running",
             .containerLogs "c1" true, .imageList])
      ∧ ((runContainer 40 removeErrorEngine ["uname", "-a"]).val = .panicked "image is in use"
        ∧ callsOf (runContainer 40 removeErrorEngine ["uname", "-a"]).trace =
            [.imagePull "alpine:latest" "amd64", createCall "/w" ["uname", "-a"],
             .containerStart "c1", .containerWait "c1" "not-running",
             .containerLogs "c1" true, .imageList,
             .imageRemove (imageLoop demoImages) true]) :=
  ⟨⟨rfl,
      ((runContainer_removes_container 40 waitErrorEngine ["uname", "-a"] demoPull 3 "/w" "c1"
        rfl (by decide) rfl rfl).1 demoLogs demoImages rfl rfl rfl (by decide)).1,
      ((runContainer_removes_container 40 waitErrorEngine ["uname", "-a"] demoPull 3 "/w" "c1"
        rfl (by decide) rfl rfl).1 demoLogs demoImages rfl rfl rfl (by decide)).2.2.1⟩,
    (runContainer_removes_container 40 listErrorEngine ["uname", "-a"] demoPull 3 "/w" "c1"
      rfl (by decide) rfl rfl).2.2.1 demoLogs "daemon unreachable" rfl (by decide) rfl,
    (runContainer_removes_container 40 removeErrorEngine ["uname", "-a"] demoPull 3 "/w" "c1"
      rfl (by decide) rfl rfl).2.2.2.1 demoLogs demoImages "image is in use" rfl (by decide)
      rfl rfl⟩

end MobyDemo
